import Mathlib

/-!
Verification of the Market-Map LLM-orchestration pipeline.

The repository ships two near-identical versions of the orchestration module
(src/lib/gemini.js): an older single-shot engine (first half of the file,
`OVERLOAD_MAX_RETRIES = 2`) and the multi-turn engine (second half,
`OVERLOAD_MAX_RETRIES = 0`) that the request handler (src/api/analyze.js)
actually imports.  The definitions below embed the multi-turn engine; the
few places where the older variant differs (its validator) are embedded in
a `V1` namespace.

JavaScript host builtins (`Number`, `JSON.parse`, `new URL`, `fetch`,
`Math.random`, timers) are not repository code; they are modelled either by
small executable stand-ins (documented on each definition) or by explicit
environment parameters.
-/

namespace MarketMap

/-- JavaScript numbers as the pipeline observes them: a finite value or one
of the non-finite sentinels (`NaN`, `Infinity`, `-Infinity`).  Finite values
are modelled as integers, which covers every value the claims exercise. -/
inductive JNum where
  | fin (v : Int)
  | nan
  | inf
  | ninf
deriving DecidableEq, Repr

/-- Untyped JavaScript values flowing out of `JSON.parse` and into the
normalizer of src/lib/gemini.js. -/
inductive JSValue where
  | undefinedV
  | null
  | bool (b : Bool)
  | num (n : JNum)
  | str (s : String)
  | arr (elems : List JSValue)
  | obj (fields : List (String × JSValue))
deriving Repr

/-- Property access `v.key` (also modelling optional chaining, since any
non-object base yields `undefined`).  On objects the last binding wins, as
with JavaScript duplicate keys. -/
def JSValue.get (v : JSValue) (key : String) : JSValue :=
  match v with
  | .obj fields =>
    match fields.reverse.find? (fun p => p.1 == key) with
    | some p => p.2
    | none => .undefinedV
  | _ => .undefinedV

/-- JavaScript truthiness. -/
def JSValue.truthy : JSValue → Bool
  | .undefinedV => false
  | .null => false
  | .bool b => b
  | .num (.fin v) => v != 0
  | .num .nan => false
  | .num _ => true
  | .str s => s ≠ ""
  | .arr _ => true
  | .obj _ => true

/-- `typeof v === "object" && v` — the guard used by the normalizers
(arrays pass it too; `null` is falsy). -/
def isObjectValue : JSValue → Bool
  | .obj _ => true
  | .arr _ => true
  | _ => false

/-! JS-flavoured string primitives, implemented by structural recursion over
the character list so that concrete runs reduce inside the kernel (several
core `String` functions are defined through well-founded recursion on byte
positions, which does not evaluate under `decide`). -/

/-- `String.prototype.trim`. -/
def strTrim (s : String) : String :=
  ((s.toList.dropWhile Char.isWhitespace).reverse.dropWhile
    Char.isWhitespace).reverse.asString

/-- `String.prototype.startsWith`. -/
def strStartsWith (s pre : String) : Bool :=
  pre.toList.isPrefixOf s.toList

/-- `String.prototype.toLowerCase` (ASCII range). -/
def strToLower (s : String) : String :=
  (s.toList.map Char.toLower).asString

/-- Drop the first `n` characters. -/
def strDrop (s : String) (n : Nat) : String :=
  (s.toList.drop n).asString

def strContainsAux (pat : List Char) : List Char → Bool
  | [] => pat.isEmpty
  | c :: rest => pat.isPrefixOf (c :: rest) || strContainsAux pat rest

/-- Split on a non-empty separator, `String.prototype.split` style.  The
fuel argument (instantiated with the list length, which every step consumes
at least one character of) keeps the recursion structural, so concrete runs
reduce in the kernel. -/
def splitOnListAux (sep : List Char) : Nat → List Char → List (List Char)
  | _, [] => [[]]
  | 0, l => [l]
  | fuel + 1, c :: rest =>
    if sep.isEmpty = false ∧ sep.isPrefixOf (c :: rest) then
      [] :: splitOnListAux sep fuel (rest.drop (sep.length - 1))
    else
      match splitOnListAux sep fuel rest with
      | [] => [[c]]
      | h :: t => (c :: h) :: t

def splitOnList (sep : List Char) (l : List Char) : List (List Char) :=
  splitOnListAux sep l.length l

def strSplitOn (s sep : String) : List String :=
  (splitOnList sep.toList s.toList).map List.asString

def strIntercalate (sep : String) : List String → String
  | [] => ""
  | [a] => a
  | a :: rest => a ++ sep ++ strIntercalate sep rest

/-- Decimal integer literal parser (digits with an optional sign). -/
def digitsToNat : List Char → Option Nat
  | [] => none
  | [c] => if c.isDigit then some (c.toNat - '0'.toNat) else none
  | c :: rest =>
    if c.isDigit then
      (digitsToNat rest).map (fun n => (c.toNat - '0'.toNat) * 10 ^ rest.length + n)
    else none

def parseIntList (l : List Char) : Option Int :=
  match l with
  | '-' :: rest => (digitsToNat rest).map (fun n => -(n : Int))
  | '+' :: rest => (digitsToNat rest).map (fun n => (n : Int))
  | _ => (digitsToNat l).map (fun n => (n : Int))

/-- `safeString` (src/lib/gemini.js:1723): trim strings, map everything else
to the empty string. -/
def safeString (v : JSValue) : String :=
  match v with
  | .str s => strTrim s
  | _ => ""

/-- Model of the host builtin `Number(string)` restricted to the integer
literals this pipeline exercises: surrounding whitespace is ignored, the
empty string coerces to 0, and anything `String.toInt?` rejects is `NaN`.
(Fractional literals therefore count as non-coercible, which only enlarges
the set of dropped metrics.) -/
def jsStringToNumber (s : String) : JNum :=
  if strTrim s = "" then .fin 0
  else
    match parseIntList (strTrim s).toList with
    | some v => .fin v
    | none => .nan

/-- `toNumber` (src/lib/gemini.js:1741): finite numbers pass through, strings
go through `Number(...)`, everything else (and every non-finite result) is
`null`, modelled as `none`. -/
def toNumber (v : JSValue) : Option Int :=
  match v with
  | .num (.fin n) => some n
  | .str s =>
    match jsStringToNumber s with
    | .fin n => some n
    | _ => none
  | _ => none

/-- `containsNumber` (src/lib/gemini.js:476, older variant): regex `/\d/`
on strings. -/
def strHasDigit (s : String) : Bool :=
  s.toList.any Char.isDigit

/-- Substring test (`String.prototype.includes`). -/
def strContains (s pat : String) : Bool :=
  decide (List.IsInfix pat.toList s.toList)

/-- Hex digit value, for percent decoding. -/
def hexVal (c : Char) : Option Nat :=
  if '0' ≤ c ∧ c ≤ '9' then some (c.toNat - '0'.toNat)
  else if 'a' ≤ c ∧ c ≤ 'f' then some (c.toNat - 'a'.toNat + 10)
  else if 'A' ≤ c ∧ c ≤ 'F' then some (c.toNat - 'A'.toNat + 10)
  else none

/-- Strict percent decoding over ASCII, modelling `decodeURIComponent`
(a host builtin): a malformed escape yields `none`, standing for the thrown
`URIError`. -/
def percentDecodeList : List Char → Option (List Char)
  | [] => some []
  | '%' :: a :: b :: rest =>
    match hexVal a, hexVal b with
    | some ha, some hb =>
      (percentDecodeList rest).map (fun r => Char.ofNat (16 * ha + hb) :: r)
    | _, _ => none
  | '%' :: _ => none
  | c :: rest => (percentDecodeList rest).map (fun r => c :: r)

/-- `decodeURIComponent` model on strings. -/
def decodeURIComponentModel (s : String) : Option String :=
  (percentDecodeList s.toList).map List.asString

/-- One iteration of the decode loop in `normalizeRedirectCandidate`
(src/lib/gemini.js:1786): a failed decode leaves the value unchanged. -/
def decodeStep (s : String) : String :=
  match decodeURIComponentModel s with
  | some next => next
  | none => s

/-- `normalizeRedirectCandidate` (src/lib/gemini.js:1786): decode up to twice
(stopping on errors or on a fixed point, which coincides with iterating
`decodeStep` twice), then accept only http(s) URLs. -/
def normalizeRedirectCandidate (value : String) : String :=
  if value = "" then ""
  else
    let decoded := decodeStep (decodeStep value)
    if strStartsWith decoded "http://" || strStartsWith decoded "https://" then decoded
    else ""

/-- Loose percent decoding, modelling `URLSearchParams` value decoding
(malformed escapes are kept verbatim rather than throwing). -/
def percentDecodeLooseList : List Char → List Char
  | [] => []
  | '%' :: a :: b :: rest =>
    match hexVal a, hexVal b with
    | some ha, some hb => Char.ofNat (16 * ha + hb) :: percentDecodeLooseList rest
    | _, _ => '%' :: percentDecodeLooseList (a :: b :: rest)
  | c :: rest => c :: percentDecodeLooseList rest

/-- `URLSearchParams` value decoding: plus signs become spaces, then percent
escapes are decoded loosely. -/
def looseParamDecode (s : String) : String :=
  (percentDecodeLooseList ((s.toList.map (fun c => if c = '+' then ' ' else c)))).asString

/-- The query-string portion of a URL: after the first `?`, before a `#`. -/
def queryOf (url : String) : String :=
  match strSplitOn url "?" with
  | [_] => ""
  | _ :: rest => (strSplitOn (strIntercalate "?" rest) "#").headD ""
  | [] => ""

/-- Model of `new URL(url).searchParams.get(key)` for the absolute URLs this
pipeline sees. -/
def searchParamGet (url key : String) : Option String :=
  let q := queryOf url
  if q = "" then none
  else
    match (strSplitOn q "&").find? (fun p => ((strSplitOn p "=").headD "") == key) with
    | some p =>
      match strSplitOn p "=" with
      | [] => some ""
      | [_] => some ""
      | _ :: vs => some (looseParamDecode (strIntercalate "=" vs))
    | none => none

/-- Model of `new URL(url).hostname` for well-formed absolute URLs: the text
between `://` and the first `/`, `?` or `#`, without credentials or port,
lowercased.  `none` stands for the constructor throwing (no scheme
separator). -/
def hostOf (url : String) : Option String :=
  match strSplitOn url "://" with
  | _ :: rest :: more =>
    let afterScheme := strIntercalate "://" (rest :: more)
    let authority :=
      (afterScheme.toList.takeWhile (fun c => c ≠ '/' ∧ c ≠ '?' ∧ c ≠ '#')).asString
    let hostPort := (strSplitOn authority "@").getLastD authority
    let host := (strSplitOn hostPort ":").headD hostPort
    some (strToLower host)
  | _ => none

/-- `isVertexRedirect` (src/lib/gemini.js:1804). -/
def isVertexHost (host : String) : Bool :=
  strContains host "vertexaisearch"

/-- The candidate query-parameter names scanned by `unwrapRedirectUrl`
(src/lib/gemini.js:1764). -/
def redirectParamKeys : List String :=
  ["url", "u", "target", "target_url", "targetUrl", "dest", "destination",
   "redirect", "redirect_url"]

/-- One step of the redirect-parameter scan: look the key up in the query
string and keep the decoded candidate only when it normalizes to an http(s)
URL (the loop body of src/lib/gemini.js:1775-1779). -/
def redirectCandidateFor (value : String) (key : String) : Option String :=
  let candidate := (searchParamGet value key).getD ""
  let n := normalizeRedirectCandidate candidate
  if n = "" then none else some n

/-- `unwrapRedirectUrl` (src/lib/gemini.js:1757): non-vertex URLs (and URLs
the `URL` builtin rejects) pass through unchanged; vertex redirect URLs are
replaced by the first decodable http(s) target parameter, if any. -/
def unwrapRedirectUrl (value : String) : String :=
  if value = "" then ""
  else
    match hostOf value with
    | none => value
    | some host =>
      if isVertexHost host = false then value
      else
        match redirectParamKeys.findSome? (redirectCandidateFor value) with
        | some n => n
        | none => value

/-- `safeUrl` (src/lib/gemini.js:1750): strings whose trimmed form starts
with `http://` or `https://` survive (possibly unwrapped from a vertex
redirect); everything else maps to the empty string. -/
def safeUrl (v : JSValue) : String :=
  match v with
  | .str s =>
    let trimmed := strTrim s
    if strStartsWith trimmed "http://" || strStartsWith trimmed "https://" then
      let unwrapped := unwrapRedirectUrl trimmed
      if unwrapped = "" then trimmed else unwrapped
    else ""
  | _ => ""

/-- Normalized metric (src/lib/gemini.js:1607). -/
structure Metric where
  label : String
  value : Int
  unit : String
  period : Option String
  source_name : String
  source_url : String
deriving DecidableEq, Repr

/-- Normalized source (src/lib/gemini.js:1625). -/
structure Source where
  name : String
  url : String
deriving DecidableEq, Repr

/-- Normalized company (src/lib/gemini.js:1584). -/
structure Company where
  name : String
  rank : Int
  metrics : List Metric
  value_prop : String
  sources : List Source
deriving DecidableEq, Repr

/-- Apology body. -/
structure Apology where
  title : String
  message : String
  hint : String
deriving DecidableEq, Repr

/-- The normalized result payload: a tagged union of apology and results
modes (src/lib/gemini.js:1485). -/
inductive Payload where
  | apology (a : Apology)
  | results (category : String) (ranking_basis : Option String) (companies : List Company)
deriving DecidableEq, Repr

def Payload.companiesOf : Payload → List Company
  | .results _ _ cs => cs
  | .apology _ => []

def Payload.modeString : Payload → String
  | .results _ _ _ => "results"
  | .apology _ => "apology"

/-- `buildDefaultApology` (src/lib/gemini.js:1715). -/
def buildDefaultApology : Apology :=
  ⟨"Signal Lost", "Sorry - I analyze software markets only.",
   "Try: CRM, payments, video conferencing."⟩

/-- `normalizeMetric` (src/lib/gemini.js:1607): a metric survives only with
a finite numeric value and a `safeUrl`-valid source URL. -/
def normalizeMetric (metric : JSValue) : Option Metric :=
  if isObjectValue metric = false then none
  else
    match toNumber (metric.get "value") with
    | none => none
    | some value =>
      let sourceUrl := safeUrl (metric.get "source_url")
      if sourceUrl = "" then none
      else
        some ⟨(let l := safeString (metric.get "label"); if l = "" then "Metric" else l),
              value,
              safeString (metric.get "unit"),
              (let p := safeString (metric.get "period"); if p = "" then none else some p),
              (let n := safeString (metric.get "source_name"); if n = "" then "Source" else n),
              sourceUrl⟩

/-- `normalizeSource` (src/lib/gemini.js:1625). -/
def normalizeSource (source : JSValue) : Option Source :=
  if isObjectValue source = false then none
  else
    let url := safeUrl (source.get "url")
    if url = "" then none
    else some ⟨(let n := safeString (source.get "name"); if n = "" then "Source" else n), url⟩

/-- `normalizeCompany` (src/lib/gemini.js:1584): nameless entries are
dropped; metric and source lists are filtered then truncated to 2. -/
def normalizeCompany (company : JSValue) : Option Company :=
  if isObjectValue company = false then none
  else
    let name := safeString (company.get "name")
    if name = "" then none
    else
      let metrics :=
        match company.get "metrics" with
        | .arr xs => (xs.filterMap normalizeMetric).take 2
        | _ => []
      let sources :=
        match company.get "sources" with
        | .arr xs => (xs.filterMap normalizeSource).take 2
        | _ => []
      some ⟨name, (toNumber (company.get "rank")).getD 0, metrics,
            safeString (company.get "value_prop"), sources⟩

/-- `raw.mode === "apology"`. -/
def isApologyMode (v : JSValue) : Bool :=
  match v with
  | .str s => s = "apology"
  | _ => false

/-- `normalizeOutput` (src/lib/gemini.js:1485): total normalizer from raw
parser output to a well-typed payload. -/
def normalizeOutput (raw : JSValue) : Payload :=
  if isObjectValue raw = false then .apology buildDefaultApology
  else if isApologyMode (raw.get "mode") then
    let ap := raw.get "apology"
    .apology ⟨(let t := safeString (ap.get "title"); if t = "" then "Signal Lost" else t),
              (let m := safeString (ap.get "message");
               if m = "" then "Sorry - I analyze software markets only." else m),
              (let h := safeString (ap.get "hint");
               if h = "" then "Try: CRM, payments, video conferencing." else h)⟩
  else
    let companies :=
      match raw.get "companies" with
      | .arr xs => xs
      | _ => []
    .results
      (let c := safeString (raw.get "category"); if c = "" then "Software Market" else c)
      (let rb := safeString (raw.get "ranking_basis"); if rb = "" then none else some rb)
      (companies.filterMap normalizeCompany)

/-- `validateOutput` of the multi-turn engine (src/lib/gemini.js:1635), over
well-typed normalized payloads (the JS not-an-object guard is vacuous
there). -/
def validateOutput (output : Payload) : List String :=
  match output with
  | .apology _ => []
  | .results category _ companies =>
    let categoryErrors := if category = "" then ["Missing category"] else []
    if companies.length < 3 then
      categoryErrors ++ ["Need at least 3 companies"]
    else
      categoryErrors ++ companies.enum.flatMap (fun p =>
        let index := p.1
        let company := p.2
        let tag := if company.name = "" then toString (index + 1) else company.name
        (if company.name = "" then ["Company " ++ toString (index + 1) ++ " missing name"]
         else []) ++
        (if company.metrics.length < 2 then ["Company " ++ tag ++ " needs 2 metrics"]
         else []))

namespace V1

/-- `validateOutput` of the older single-shot engine (src/lib/gemini.js:411):
like the multi-turn validator but with two additional per-company defect
classes about `value_prop`. -/
def validateOutput (output : Payload) : List String :=
  match output with
  | .apology _ => []
  | .results category _ companies =>
    let categoryErrors := if category = "" then ["Missing category"] else []
    if companies.length < 3 then
      categoryErrors ++ ["Need at least 3 companies"]
    else
      categoryErrors ++ companies.enum.flatMap (fun p =>
        let index := p.1
        let company := p.2
        let tag := if company.name = "" then toString (index + 1) else company.name
        (if company.name = "" then ["Company " ++ toString (index + 1) ++ " missing name"]
         else []) ++
        (if company.metrics.length < 2 then ["Company " ++ tag ++ " needs 2 metrics"]
         else []) ++
        (if company.value_prop = "" then ["Company " ++ tag ++ " missing value prop"]
         else if strHasDigit company.value_prop = false then
           ["Company " ++ tag ++ " value prop missing numeric evidence"]
         else []))

end V1

/-! ### Constants of the multi-turn engine (src/lib/gemini.js:785-802), at
their environment-variable defaults. -/

def DEFAULT_MODEL : String := "gemini-3-flash-preview"
def MAX_ATTEMPTS : Nat := 1
def REQUEST_TIMEOUT_MS : Int := 25000
def TOTAL_TIMEOUT_MS : Int := 55000
def REQUEST_MIN_TIMEOUT_MS : Int := 2000
def SAFETY_MARGIN_MS : Int := 1500
def OVERLOAD_MAX_RETRIES : Nat := 0
def OVERLOAD_BASE_DELAY_MS : Int := 500
def OVERLOAD_MAX_DELAY_MS : Int := 6000
def MODEL_FALLBACK_ORDER : List String :=
  ["gemini-3-flash-preview", "gemini-2.5-flash-lite", "gemini-2.0-flash", "gemini-1.5-flash"]

/-- `sanitizeModelName` (src/lib/gemini.js:1809): trim, strip a leading
"models/", fall back to the default model on empty (non-strings are not
representable at the call sites we embed). -/
def sanitizeModelName (value : String) : String :=
  let t := strTrim value
  let stripped := if strStartsWith t "models/" then strDrop t 7 else t
  if stripped = "" then DEFAULT_MODEL else stripped

/-! ### Deadline & timeout policy (src/lib/gemini.js:1853-1884).
`Date.now()` is threaded explicitly as `now`; a `deadline` of 0 is the
"no deadline" sentinel (`timeLeftMs` then returns Infinity, so each guard
below carries its own zero-deadline branch exactly as the source does). -/

def timeLeftMs (deadline now : Int) : Int :=
  max 0 (deadline - now)

def hasTimeForRetry (deadline now delayMs : Int) : Bool :=
  if deadline = 0 then true
  else timeLeftMs deadline now > delayMs + REQUEST_MIN_TIMEOUT_MS + SAFETY_MARGIN_MS

def hasTimeForRequest (deadline now : Int) : Bool :=
  if deadline = 0 then true
  else timeLeftMs deadline now > REQUEST_MIN_TIMEOUT_MS + SAFETY_MARGIN_MS

/-- `getRequestTimeout` (src/lib/gemini.js:1868). -/
def getRequestTimeout (deadline now : Int) : Int :=
  if deadline = 0 then REQUEST_TIMEOUT_MS
  else
    let timeLeft := timeLeftMs deadline now
    if timeLeft ≤ SAFETY_MARGIN_MS then 0
    else min REQUEST_TIMEOUT_MS (max REQUEST_MIN_TIMEOUT_MS (timeLeft - SAFETY_MARGIN_MS))

/-- `getRetryDelayMs` (src/lib/gemini.js:1878); the `Math.random()` jitter
term is passed in explicitly. -/
def getRetryDelayMs (attempt : Nat) (jitter : Int) : Int :=
  min OVERLOAD_MAX_DELAY_MS (OVERLOAD_BASE_DELAY_MS * 2 ^ (attempt - 1)) + jitter

/-! ### Model registry order walk (src/lib/gemini.js:1909-1940). -/

def orderedFallbackModels : List String :=
  (MODEL_FALLBACK_ORDER.map sanitizeModelName).filter (fun m => m ≠ "")

/-- `Array.prototype.indexOf`, as an option-valued position. -/
def indexOfAux (l : List String) (x : String) : Option Nat :=
  match l with
  | [] => none
  | a :: rest => if a = x then some 0 else (indexOfAux rest x).map (fun i => i + 1)

/-- The walk's start index: one past the current model's position, or the
start of the list when the current model is not listed
(src/lib/gemini.js:1929-1930). -/
def fallbackStartIndex (currentModel : String) : Nat :=
  match indexOfAux orderedFallbackModels (sanitizeModelName currentModel) with
  | some i => i + 1
  | none => 0

/-- `pickNextModelInOrder` (src/lib/gemini.js:1926): walk the fixed priority
list starting after the current model's position (from the start if the
current model is not listed) and return the first candidate present in
`models` — an empty `models` list counts every candidate as available; when
the walk is exhausted, return the (sanitized) current model itself. -/
def pickNextModelInOrder (currentModel : String) (models : List String) : String :=
  match (orderedFallbackModels.drop (fallbackStartIndex currentModel)).find?
      (fun c => models.isEmpty || models.contains c) with
  | some c => c
  | none => sanitizeModelName currentModel

/-! ### Citation reachability probe (src/api/analyze.js:837). -/

/-- Outcome of one `fetch` probe: an HTTP status, or a thrown network
error / abort. -/
inductive ProbeOutcome where
  | status (n : Nat)
  | netError
deriving DecidableEq, Repr

/-- The probe responses the checker would observe for one URL: the HEAD
request and the GET fallback. -/
structure UrlProbes where
  headResult : ProbeOutcome
  getResult : ProbeOutcome
deriving DecidableEq, Repr

structure CheckResult where
  ok : Bool
  status : Nat
  error : Bool
deriving DecidableEq, Repr

/-- `checkUrl` (src/api/analyze.js:837): HEAD probe, GET fallback on 403/405,
broken only on a definitive 404, fail-open (`ok`) on any thrown error. -/
def checkUrl (url : String) (probes : UrlProbes) : CheckResult :=
  if url = "" then ⟨false, 0, false⟩
  else
    match probes.headResult with
    | .netError => ⟨true, 0, true⟩
    | .status h =>
      if h = 405 ∨ h = 403 then
        match probes.getResult with
        | .netError => ⟨true, 0, true⟩
        | .status g => if g = 404 then ⟨false, 404, false⟩ else ⟨true, g, false⟩
      else if h = 404 then ⟨false, 404, false⟩
      else ⟨true, h, false⟩

/-! ### In-memory result caches (src/api/analyze.js:15-21 and 382-421).
The process-local `Map`s are modelled as association lists; `Date.now()` is
threaded as `now`. -/

def CACHE_TTL_MS : Int := 15 * 60 * 1000

structure CacheEntry where
  payload : Payload
  timestamp : Int
deriving DecidableEq, Repr

abbrev CacheMap := List (String × CacheEntry)

def mapGet (m : CacheMap) (key : String) : Option CacheEntry :=
  (m.find? (fun p => p.1 == key)).map (fun p => p.2)

def mapDelete (m : CacheMap) (key : String) : CacheMap :=
  m.filter (fun p => p.1 ≠ key)

def mapSet (m : CacheMap) (key : String) (e : CacheEntry) : CacheMap :=
  (key, e) :: mapDelete m key

/-- `normalizeKey` (src/api/analyze.js:382). -/
def normalizeKey (value : String) : String :=
  strToLower (strTrim value)

/-- `getCachedEntry` (src/api/analyze.js:386); also returns the updated map
since a stale read deletes the entry. -/
def getCachedEntry (cacheMap : CacheMap) (key : String) (now : Int) (allowStale : Bool) :
    Option (Payload × Bool) × CacheMap :=
  match mapGet cacheMap key with
  | none => (none, cacheMap)
  | some entry =>
    let isStale := now - entry.timestamp > CACHE_TTL_MS
    if isStale ∧ allowStale = false then (none, mapDelete cacheMap key)
    else (some (entry.payload, isStale), cacheMap)

structure FindHit where
  payload : Payload
  stale : Bool
  key : String
  source : String
deriving DecidableEq, Repr

/-- `findCachedPayload` (src/api/analyze.js:398): the input-keyed cache is
consulted first, then the category-keyed cache, under the same normalized
key. -/
def findCachedPayload (inputCache categoryCache : CacheMap) (input : String)
    (now : Int) (allowStale : Bool) : Option FindHit × CacheMap × CacheMap :=
  if input = "" then (none, inputCache, categoryCache)
  else
    let key := normalizeKey input
    match getCachedEntry inputCache key now allowStale with
    | (some hit, ic) => (some ⟨hit.1, hit.2, key, "input"⟩, ic, categoryCache)
    | (none, ic) =>
      match getCachedEntry categoryCache key now allowStale with
      | (some hit, cc) => (some ⟨hit.1, hit.2, key, "category"⟩, ic, cc)
      | (none, cc) => (none, ic, cc)

/-- `storeCachedPayload` (src/api/analyze.js:413): only `results`-mode
payloads are inserted, under the normalized input key and (when the category
is non-empty) the normalized category key. -/
def storeCachedPayload (inputCache categoryCache : CacheMap) (input : String)
    (payload : Payload) (now : Int) : CacheMap × CacheMap :=
  if payload.modeString ≠ "results" then (inputCache, categoryCache)
  else
    let ic := mapSet inputCache (normalizeKey input) ⟨payload, now⟩
    match payload with
    | .results category _ _ =>
      if category ≠ "" then (ic, mapSet categoryCache (normalizeKey category) ⟨payload, now⟩)
      else (ic, categoryCache)
    | .apology _ => (ic, categoryCache)

/-! ### Concurrency admission gate (the queue module at the end of
src/lib/gemini.js: `withGeminiQueue`, `acquireSlot`, `releaseSlot`).
The event-driven runtime is modelled as a transition system: `arrive`
is a caller entering `withGeminiQueue` (admitted at once below the cap,
queued otherwise), `fire` is a queued caller's wait timer expiring, and
`complete` is an admitted task finishing with a value or a throw (the
`finally` release).  Task values are drawn from `Nat`; callers carry unique
ids, enforced by the `seen` guard on `arrive`. -/

def MAX_CONCURRENCY : Nat := 3
def QUEUE_TIMEOUT_MS : Int := 2000

inductive TaskOutcome where
  | value (v : Nat)
  | throws (msg : String)
deriving DecidableEq, Repr

/-- What a `withGeminiQueue` caller observes: `{status:"ok", value}`,
`{status:"timeout"}`, or the task's exception propagating. -/
inductive QRes where
  | ok (v : Nat)
  | timeout
  | threw (msg : String)
deriving DecidableEq, Repr

def outcomeToRes : TaskOutcome → QRes
  | .value v => .ok v
  | .throws m => .threw m

structure QState where
  active : List Nat
  queue : List Nat
  invoked : List Nat
  results : List (Nat × QRes)
deriving DecidableEq, Repr

def QState.initial : QState := ⟨[], [], [], []⟩

def QState.seen (s : QState) (id : Nat) : Bool :=
  decide (id ∈ s.invoked) || decide (id ∈ s.queue) ||
    decide (id ∈ s.results.map Prod.fst)

inductive QEvent where
  | arrive (id : Nat)
  | fire (id : Nat)
  | complete (id : Nat) (out : TaskOutcome)
deriving DecidableEq, Repr

/-- One transition of the admission gate.  `arrive` mirrors `acquireSlot`
(immediate token below the cap, FIFO enqueue otherwise); `fire` mirrors the
`setTimeout` callback (splice out of the wait queue, resolve `null`, so the
caller gets the timeout status); `complete` mirrors `token.release()` →
`releaseSlot` (decrement, then admit the FIFO head, clearing its timer). -/
def queueStep (s : QState) : QEvent → QState
  | .arrive id =>
    if s.seen id then s
    else if s.active.length < MAX_CONCURRENCY then
      { s with active := s.active ++ [id], invoked := s.invoked ++ [id] }
    else { s with queue := s.queue ++ [id] }
  | .fire id =>
    if id ∈ s.queue then
      { s with queue := s.queue.erase id, results := (id, .timeout) :: s.results }
    else s
  | .complete id out =>
    if id ∈ s.active then
      let s1 := { s with active := s.active.erase id,
                         results := (id, outcomeToRes out) :: s.results }
      match s1.queue with
      | [] => s1
      | w :: ws =>
        { s1 with queue := ws, active := s1.active ++ [w], invoked := s1.invoked ++ [w] }
    else s

def runQueue (events : List QEvent) : QState :=
  events.foldl queueStep QState.initial

/-! ### JSON extraction (src/lib/gemini.js:1378-1483).
`JSON.parse` is a host builtin; it enters as the `jsonParse` parameter.
The repository logic around it — candidate selection, fence/smart-quote/
trailing-comma cleanup, and the balanced-bracket scanner — is transcribed
below. -/

/-- Array index access `v[i]`. -/
def JSValue.getIndex (v : JSValue) (i : Nat) : JSValue :=
  match v with
  | .arr xs => xs.getD i .undefinedV
  | _ => .undefinedV

/-- `extractText` (src/lib/gemini.js:1373). -/
def extractText (payload : JSValue) : String :=
  let parts :=
    match (((payload.get "candidates").getIndex 0).get "content").get "parts" with
    | .arr xs => xs
    | _ => []
  String.join (parts.map (fun part =>
    match part.get "text" with
    | .str s => s
    | _ => ""))

/-- Case-insensitive prefix test on character lists. -/
def isPrefixCI : List Char → List Char → Bool
  | [], _ => true
  | _, [] => false
  | p :: ps, x :: xs => (x.toLower == p.toLower) && isPrefixCI ps xs

theorem length_dropWhile_le_self (p : Char → Bool) (l : List Char) :
    (l.dropWhile p).length ≤ l.length := by
  induction l with
  | nil => simp
  | cons a t ih =>
    simp only [List.dropWhile]
    split
    · exact Nat.le_succ_of_le ih
    · simp

/-- First fence-strip pass: the global regex `/\x60\x60\x60(?:json)?/gi`,
which at each position removes a case-insensitive triple-backtick-json
opener, or a bare triple backtick.  Fuel keeps the recursion structural. -/
def stripFencesPass1Aux : Nat → List Char → List Char
  | _, [] => []
  | 0, l => l
  | fuel + 1, c :: rest =>
    if isPrefixCI "```json".toList (c :: rest) then stripFencesPass1Aux fuel (rest.drop 6)
    else if isPrefixCI "```".toList (c :: rest) then stripFencesPass1Aux fuel (rest.drop 2)
    else c :: stripFencesPass1Aux fuel rest

def stripFencesPass1 (l : List Char) : List Char :=
  stripFencesPass1Aux l.length l

/-- Second fence-strip pass: the global regex removing any remaining bare
triple backticks. -/
def stripFencesPass2Aux : Nat → List Char → List Char
  | _, [] => []
  | 0, l => l
  | fuel + 1, c :: rest =>
    if isPrefixCI "```".toList (c :: rest) then stripFencesPass2Aux fuel (rest.drop 2)
    else c :: stripFencesPass2Aux fuel rest

def stripFencesPass2 (l : List Char) : List Char :=
  stripFencesPass2Aux l.length l

/-- Smart-quote / non-breaking-space replacements
(src/lib/gemini.js:1410-1412). -/
def mapSmartChars (c : Char) : Char :=
  if c = Char.ofNat 0x201c ∨ c = Char.ofNat 0x201d then '"'
  else if c = Char.ofNat 0x2018 ∨ c = Char.ofNat 0x2019 then '\''
  else if c = Char.ofNat 0x00a0 then ' '
  else c

/-- The whitespace class of the trailing-comma regex. -/
def isJsWhitespace (c : Char) : Bool :=
  c = ' ' ∨ c = '\t' ∨ c = '\n' ∨ c = '\r' ∨ c = Char.ofNat 0x0b ∨
    c = Char.ofNat 0x0c ∨ c = Char.ofNat 0x00a0

/-- The global trailing-comma regex of src/lib/gemini.js:1413: a comma
followed by whitespace and a closing brace/bracket collapses to the
closer. -/
def stripTrailingCommasAux : Nat → List Char → List Char
  | _, [] => []
  | 0, l => l
  | fuel + 1, ',' :: rest =>
    let ws := rest.dropWhile isJsWhitespace
    match ws with
    | c :: _ =>
      if c = '}' ∨ c = ']' then stripTrailingCommasAux fuel ws
      else ',' :: stripTrailingCommasAux fuel rest
    | [] => ',' :: stripTrailingCommasAux fuel rest
  | fuel + 1, c :: rest => c :: stripTrailingCommasAux fuel rest

def stripTrailingCommas (l : List Char) : List Char :=
  stripTrailingCommasAux l.length l

/-- `normalizeJsonCandidate` (src/lib/gemini.js:1405). -/
def normalizeJsonCandidate (value : String) : String :=
  if value = "" then ""
  else
    let cleaned := stripFencesPass2 (stripFencesPass1 value.toList)
    let cleaned := cleaned.map mapSmartChars
    let cleaned := stripTrailingCommas cleaned
    strTrim cleaned.asString

/-- State of the balanced-bracket scanner (src/lib/gemini.js:1425): the
bracket stack (head = top), string mode with its quote character and escape
flag, the characters of the candidate being collected (the source slices by
index; collecting is equivalent), and the finished candidates. -/
structure ScanState where
  stack : List Char
  inString : Bool
  stringChar : Option Char
  escape : Bool
  buf : List Char
  acc : List String

/-- One character of the scanner loop. -/
def scanStep (st : ScanState) (ch : Char) : ScanState :=
  if st.inString then
    let stB := { st with buf := if st.stack.isEmpty then st.buf else st.buf ++ [ch] }
    if st.escape then { stB with escape := false }
    else if ch = '\\' then { stB with escape := true }
    else if some ch = st.stringChar then { stB with inString := false, stringChar := none }
    else stB
  else if ch = '"' ∨ ch = '\'' then
    { st with inString := true, stringChar := some ch,
              buf := if st.stack.isEmpty then st.buf else st.buf ++ [ch] }
  else if ch = '{' ∨ ch = '[' then
    if st.stack.isEmpty then { st with stack := [ch], buf := [ch] }
    else { st with stack := ch :: st.stack, buf := st.buf ++ [ch] }
  else if ch = '}' ∨ ch = ']' then
    match st.stack with
    | [] => st
    | last :: restStack =>
      if (ch = '}' ∧ last = '{') ∨ (ch = ']' ∧ last = '[') then
        let buf := st.buf ++ [ch]
        if restStack.isEmpty then
          { st with stack := [], buf := [], acc := st.acc ++ [buf.asString] }
        else { st with stack := restStack, buf := buf }
      else { st with stack := [], buf := [] }
  else
    { st with buf := if st.stack.isEmpty then st.buf else st.buf ++ [ch] }

/-- `extractJsonCandidates` (src/lib/gemini.js:1425). -/
def extractJsonCandidates (text : String) : List String :=
  (text.toList.foldl scanStep ⟨[], false, none, false, [], []⟩).acc

/-- `parseJson` (src/lib/gemini.js:1378), with `JSON.parse` supplied as
`jsonParse`. -/
def parseJson (jsonParse : String → Option JSValue) (text : String) : Option JSValue :=
  if text = "" then none
  else
    let trimmed := strTrim text
    let l := trimmed.toList
    let sliceCandidate :=
      match l.findIdx? (fun c => c = '{'), l.reverse.findIdx? (fun c => c = '}') with
      | some s, some rFromEnd =>
        let e := l.length - 1 - rFromEnd
        if e > s then [((l.drop s).take (e + 1 - s)).asString] else []
      | _, _ => []
    let candidates := (if trimmed = "" then [] else [trimmed]) ++ sliceCandidate
    candidates.findSome? (fun candidate =>
      let normalized := normalizeJsonCandidate candidate
      if normalized = "" then none
      else
        match jsonParse normalized with
        | some direct => some direct
        | none => (extractJsonCandidates normalized).findSome? jsonParse)

/-! ### The retry/fallback orchestrator (multi-turn engine,
src/lib/gemini.js:916-1165), specialized to the default `analyze` task
(default prompt builder, normalizer and validator; prompt text and event
payload previews are elided).  Network I/O is a script of upstream
responses, one consumed per `generateContent` call; `Date.now()` is the
explicit `now`, advanced by each response's `elapsed` duration and by each
backoff sleep.  `JSON.parse` and the `Math.random()` jitter are host
builtins supplied by the environment; `listModels()` is the environment's
`available` list. -/

structure JsError where
  name : String
  message : String
deriving DecidableEq, Repr

/-- `isTimeoutError` (src/lib/gemini.js:1846). -/
def isTimeoutError (e : JsError) : Bool :=
  e.name = "AbortError" || strContains (strToLower e.message) "timeout"

/-- `isOverloadedError` (src/lib/gemini.js:1839); `message` is the raw
`payload?.error?.message || response.status` value, so the typeof-string
guard is the `.str` case. -/
def isOverloadedError (status : Nat) (message : JSValue) : Bool :=
  if status = 429 ∨ status = 503 then true
  else
    match message with
    | .str s =>
      strContains (strToLower s) "overloaded" ||
        strContains (strToLower s) "try again later"
    | _ => false

/-- `isModelError` (src/lib/gemini.js:1826). -/
def isModelError (status : Nat) (message : JSValue) : Bool :=
  if status = 404 ∨ status = 400 then true
  else
    match message with
    | .str s =>
      let lowered := strToLower s
      strContains lowered "model" &&
        (strContains lowered "not found" || strContains lowered "not supported" ||
         strContains lowered "permission" || strContains lowered "access")
    | _ => false

/-- String rendering of the error-message value, for trace events and thrown
error text. -/
def messageString (v : JSValue) : String :=
  match v with
  | .str s => s
  | .num (.fin n) => toString n
  | _ => ""

inductive UpstreamResult where
  | http (status : Nat) (body : Option JSValue)
  | netError (err : JsError)
deriving Repr

structure ScriptEntry where
  elapsed : Int
  result : UpstreamResult
deriving Repr

structure GemEnv where
  hasApiKey : Bool
  available : List String
  jitter : Nat → Int
  jsonParse : String → Option JSValue

/-- The option bag threaded through `analyzeWithRetry`
(src/lib/gemini.js:922-946), after defaulting. -/
structure RetryOpts where
  model : String
  triedFallback : Bool
  triedNoTools : Bool
  useTools : Bool
  transientAttempt : Nat
  triedOverloadFallback : Bool
  deadline : Int
  maxAttempts : Nat
deriving Repr

/-- The synchronous effects of one orchestrator run, in order: recorder
events (gemini_request, gemini_error, gemini_overloaded_retry, ...) plus a
`sleep` marker for each backoff `await sleep(delayMs)`. -/
inductive GemEvent where
  | request (model : String) (attempt : Nat) (useTools : Bool)
  | errorEvent (status : Nat) (message : String)
  | timeoutEvent (message : String)
  | responseEvent (status : Nat)
  | overloadedRetry (attempt : Nat) (delayMs : Int) (model : String)
  | overloadedRetrySkipped
  | overloadFallback (fromModel toModel : String)
  | modelFallback (fromModel toModel : String)
  | groundingFallback (model : String)
  | timeoutRetry (attempt : Nat) (model : String)
  | parseFailed
  | sleep (delayMs : Int)
deriving DecidableEq, Repr

/-- `analyzeWithRetry` of the multi-turn engine (src/lib/gemini.js:916),
default `analyze` task.  Returns the payload or the thrown error message,
together with the ordered effect log. -/
def analyzeWithRetry (env : GemEnv) (script : List ScriptEntry) (now : Int)
    (attempt : Nat) (lastError : String) (o : RetryOpts) :
    Except String Payload × List GemEvent :=
  if env.hasApiKey = false then (.error "Missing GEMINI_API_KEY", [])
  else
    let model := sanitizeModelName o.model
    let o := { o with model := model }
    if o.deadline ≠ 0 ∧ o.deadline - now ≤ SAFETY_MARGIN_MS then
      (.error "Gemini timeout before completion", [])
    else
      let ev0 : List GemEvent := [.request model attempt o.useTools]
      if getRequestTimeout o.deadline now ≤ 0 then
        (.error "Gemini timeout before request", ev0)
      else
        match script with
        | [] => (.error "upstream script exhausted", ev0)
        | entry :: rest =>
          let now := now + entry.elapsed
          match entry.result with
          | .netError err =>
            let timeout := isTimeoutError err
            let msg := if err.message = "" then "Request failed" else err.message
            let ev1 := ev0 ++
              [if timeout then GemEvent.timeoutEvent msg else GemEvent.errorEvent 0 msg]
            if timeout ∧ attempt < o.maxAttempts ∧ hasTimeForRequest o.deadline now then
              let ev2 := ev1 ++ [.timeoutRetry attempt model]
              let r := analyzeWithRetry env rest now (attempt + 1) ""
                { o with transientAttempt := o.transientAttempt + 1 }
              (r.1, ev2 ++ r.2)
            else (.error ("Gemini request failed: " ++ msg), ev1)
          | .http status body =>
            if 200 ≤ status ∧ status < 300 then
              match body with
              | none => (.error "Gemini response was not JSON", ev0)
              | some payload =>
                match parseJson env.jsonParse (extractText payload) with
                | none =>
                  let ev1 := ev0 ++ [GemEvent.parseFailed]
                  if o.useTools ∧ o.triedNoTools = false ∧
                      hasTimeForRequest o.deadline now then
                    let ev2 := ev1 ++ [.groundingFallback model]
                    let r := analyzeWithRetry env rest now attempt "Retry without grounding."
                      { o with useTools := false, triedNoTools := true, transientAttempt := 0 }
                    (r.1, ev2 ++ r.2)
                  else if attempt < o.maxAttempts then
                    let r := analyzeWithRetry env rest now (attempt + 1) "Invalid JSON output." o
                    (r.1, ev1 ++ r.2)
                  else (.error "Gemini returned invalid JSON", ev1)
                | some parsed =>
                  let ev1 := ev0 ++ [GemEvent.responseEvent status]
                  let normalized := normalizeOutput parsed
                  let errors := validateOutput normalized
                  if errors ≠ [] ∧ attempt < o.maxAttempts then
                    let r := analyzeWithRetry env rest now (attempt + 1)
                      (strIntercalate " | " errors) o
                    (r.1, ev1 ++ r.2)
                  else (.ok normalized, ev1)
            else
              let msgVal : JSValue :=
                match body with
                | some b =>
                  let m := (b.get "error").get "message"
                  if m.truthy then m else .num (.fin (Int.ofNat status))
                | none => .num (.fin (Int.ofNat status))
              let msgStr := messageString msgVal
              let ev1 := ev0 ++ [GemEvent.errorEvent status msgStr]
              let groundingOrThrow : List GemEvent → Except String Payload × List GemEvent :=
                fun ev =>
                  if o.useTools ∧ o.triedNoTools = false ∧
                      hasTimeForRequest o.deadline now then
                    let ev2 := ev ++ [GemEvent.groundingFallback model]
                    let r := analyzeWithRetry env rest now attempt "Retry without grounding."
                      { o with useTools := false, triedNoTools := true, transientAttempt := 0 }
                    (r.1, ev2 ++ r.2)
                  else (.error ("Gemini error: " ++ msgStr), ev)
              let modelErrorOrBeyond : List GemEvent → Except String Payload × List GemEvent :=
                fun ev =>
                  if o.triedFallback = false ∧ isModelError status msgVal then
                    let fallbackModel := pickNextModelInOrder model env.available
                    if fallbackModel ≠ "" ∧ fallbackModel ≠ model then
                      let ev2 := ev ++ [GemEvent.modelFallback model fallbackModel]
                      let r := analyzeWithRetry env rest now attempt
                        ("Model fallback: " ++ msgStr)
                        { o with model := fallbackModel, triedFallback := true }
                      (r.1, ev2 ++ r.2)
                    else
                      let ev2 := ev ++ [GemEvent.modelFallback model DEFAULT_MODEL]
                      let r := analyzeWithRetry env rest now attempt
                        ("Model fallback: " ++ msgStr)
                        { o with model := DEFAULT_MODEL, triedFallback := true }
                      (r.1, ev2 ++ r.2)
                  else groundingOrThrow ev
              let overloadFallbackOrBeyond :
                  List GemEvent → Except String Payload × List GemEvent :=
                fun ev =>
                  if o.triedOverloadFallback = false ∧ hasTimeForRequest o.deadline now then
                    let fallbackModel := pickNextModelInOrder model env.available
                    if fallbackModel ≠ "" ∧ fallbackModel ≠ model then
                      let ev2 := ev ++ [GemEvent.overloadFallback model fallbackModel]
                      let r := analyzeWithRetry env rest now attempt lastError
                        { o with model := fallbackModel, transientAttempt := 0,
                                 triedOverloadFallback := true }
                      (r.1, ev2 ++ r.2)
                    else modelErrorOrBeyond ev
                  else modelErrorOrBeyond ev
              if isOverloadedError status msgVal then
                if o.transientAttempt < OVERLOAD_MAX_RETRIES then
                  let delayMs := getRetryDelayMs (o.transientAttempt + 1)
                    (env.jitter (o.transientAttempt + 1))
                  if hasTimeForRetry o.deadline now delayMs = false then
                    overloadFallbackOrBeyond (ev1 ++ [GemEvent.overloadedRetrySkipped])
                  else
                    let ev2 := ev1 ++
                      [GemEvent.overloadedRetry (o.transientAttempt + 1) delayMs model,
                       GemEvent.sleep delayMs]
                    let r := analyzeWithRetry env rest (now + delayMs) attempt lastError
                      { o with transientAttempt := o.transientAttempt + 1 }
                    (r.1, ev2 ++ r.2)
                else overloadFallbackOrBeyond ev1
              else modelErrorOrBeyond ev1

/-- `shouldUseGrounding` (src/lib/gemini.js:1819); the regex word
boundaries are relaxed to substring tests, which agrees on every input the
claims exercise. -/
def shouldUseGrounding (input : String) : Bool :=
  if input = "" then false
  else
    let trimmed := strTrim input
    if trimmed = "" then false
    else
      let lowered := strToLower trimmed
      strContains lowered "2025" || strContains lowered "2026" ||
        strContains lowered "latest"

/-- `analyzeMarket` (src/lib/gemini.js:806) with no caller options, at the
environment defaults: preferred model = the default model, grounding decided
from the input, deadline = now + total budget. -/
def analyzeMarket (env : GemEnv) (input : String) (script : List ScriptEntry)
    (now : Int) : Except String Payload × List GemEvent :=
  analyzeWithRetry env script now 1 ""
    { model := sanitizeModelName DEFAULT_MODEL,
      triedFallback := false, triedNoTools := false,
      useTools := shouldUseGrounding input,
      transientAttempt := 0, triedOverloadFallback := false,
      deadline := now + TOTAL_TIMEOUT_MS, maxAttempts := MAX_ATTEMPTS }

/-! ### Request handler (src/api/analyze.js:23-369).
Tracing and HTML rendering are external collaborators and are elided.
Each `withGeminiQueue(task)` call appears as a `QOutcome` in the handler's
environment: `timeout` means the admission gate rejected the caller (the
task never ran), `ok`/`threw` mean the task ran and returned or threw — the
latter two are logged in the ordered list of upstream task invocations.
The citation-repair pass (`verifyAndRepairCitations`) is abstracted as the
environment's `repair` function together with the upstream calls it makes;
`decodePlanSnapshot` (base64 + `JSON.parse` builtins) is the environment's
`snapshot`; `crypto.randomUUID()` is `newPlanId`. -/

def PLAN_TTL_MS : Int := 30 * 60 * 1000

structure PlanDetails where
  sources : List String
  metrics : List String
  approach : String
deriving DecidableEq, Repr

structure PlanValue where
  category : String
  ranking_basis : String
  plan : PlanDetails
  clarifying_question : String
deriving DecidableEq, Repr

structure ReviewValue where
  mode : String
  reason : String
deriving DecidableEq, Repr

structure PlanStoreEntry where
  plan : PlanValue
  baseInput : String
  timestamp : Int
deriving DecidableEq, Repr

abbrev PlanStore := List (String × PlanStoreEntry)

def planStoreGet (m : PlanStore) (key : String) : Option PlanStoreEntry :=
  (m.find? (fun p => p.1 == key)).map (fun p => p.2)

def planStoreDelete (m : PlanStore) (key : String) : PlanStore :=
  m.filter (fun p => p.1 ≠ key)

/-- `storePlan` (src/api/analyze.js:423). -/
def storePlan (store : PlanStore) (planId : String) (plan : PlanValue)
    (baseInput : String) (now : Int) : PlanStore :=
  if planId = "" then store
  else (planId, ⟨plan, baseInput, now⟩) :: planStoreDelete store planId

/-- `getPlan` (src/api/analyze.js:428); a stale read deletes the entry. -/
def getPlan (store : PlanStore) (planId : String) (now : Int) :
    Option PlanStoreEntry × PlanStore :=
  if planId = "" then (none, store)
  else
    match planStoreGet store planId with
    | none => (none, store)
    | some entry =>
      if now - entry.timestamp > PLAN_TTL_MS then (none, planStoreDelete store planId)
      else (some entry, store)

/-- `buildReplanInput` (src/api/analyze.js:440). -/
def buildReplanInput (baseInput clarification : String) : String :=
  let base := strTrim baseInput
  let detail := strTrim clarification
  if detail = "" then base
  else if base = "" then detail
  else base ++ "\nClarification: " ++ detail

/-- `buildApologyPayload` (src/api/analyze.js:371). -/
def buildApologyPayload : Payload :=
  .apology ⟨"Signal Lost", "Sorry - I analyze software markets only.",
            "Try: CRM, payments, video conferencing."⟩

/-- Outcome of one `withGeminiQueue` call as the handler observes it. -/
inductive QOutcome (α : Type) where
  | timeout
  | ok (v : α)
  | threw (message : String)

/-- The upstream generation tasks the handler can hand to the queue (plus
the repair sub-task invoked directly by the citation pass). -/
inductive UpCall where
  | planCall
  | assessCall
  | executeCall
  | analyzeCall
  | repairCall
deriving DecidableEq, Repr

structure HEnv where
  planQ : QOutcome PlanValue
  reviewQ : QOutcome ReviewValue
  replanQ : QOutcome PlanValue
  executeQ : QOutcome Payload
  analyzeQ : QOutcome Payload
  snapshot : Option (PlanValue × String)
  newPlanId : String
  repair : Payload → Payload × List UpCall

/-- An incoming request: the HTTP method and the result of
`JSON.parse(body || "{}")` (`none` when the parse threw, which leaves the
handler's defaults in place, src/api/analyze.js:39-49). -/
structure HReq where
  method : String
  body : Option JSValue

def reqInput (body : Option JSValue) : String :=
  match body with
  | some o =>
    match o.get "input" with
    | .str s => strTrim s
    | _ => ""
  | none => ""

def reqStage (body : Option JSValue) : String :=
  match body with
  | some o =>
    match o.get "stage" with
    | .str s => s
    | _ => "results"
  | none => "results"

def reqPlanId (body : Option JSValue) : String :=
  match body with
  | some o =>
    match o.get "plan_id" with
    | .str s => s
    | _ => ""
  | none => ""

/-- The JSON body the handler responds with (trace ids elided): a market
payload with an optional `debug.message`, or a plan payload. -/
inductive OutBody where
  | market (p : Payload) (debug : Option String)
  | plan (v : PlanValue) (plan_id : String) (base_input : String)
deriving DecidableEq, Repr

inductive HResp where
  | methodNotAllowed
  | ok (body : OutBody)
deriving DecidableEq, Repr

structure SrvState where
  inputCache : CacheMap
  categoryCache : CacheMap
  planStore : PlanStore
deriving DecidableEq, Repr

structure HOut where
  resp : HResp
  upstream : List UpCall
  state : SrvState
deriving DecidableEq, Repr

/-- The request handler (src/api/analyze.js:23): branch structure, queue
outcomes, cache interaction and plan-store bookkeeping, with the response
payload and the ordered list of upstream generation-task invocations. -/
def handler (req : HReq) (env : HEnv) (st : SrvState) (now : Int) : HOut :=
  if req.method ≠ "POST" then ⟨.methodNotAllowed, [], st⟩
  else
    let input := reqInput req.body
    let stage := reqStage req.body
    let planId := reqPlanId req.body
    let fallback := buildApologyPayload
    if input = "" ∧ stage ≠ "execute" then
      ⟨.ok (.market fallback none), [], st⟩
    else if stage = "plan" then
      match env.planQ with
      | .timeout => ⟨.ok (.market fallback (some "Server busy. Please retry.")), [], st⟩
      | .threw m => ⟨.ok (.market fallback (some m)), [.planCall], st⟩
      | .ok v =>
        let derivedPlanId := if planId ≠ "" then planId else env.newPlanId
        ⟨.ok (.plan v derivedPlanId input), [.planCall],
         { st with planStore := storePlan st.planStore derivedPlanId v input now }⟩
    else if stage = "execute" then
      let rp := getPlan st.planStore planId now
      let st1 := { st with planStore := rp.2 }
      let planEntry : Option (PlanValue × String) :=
        match rp.1 with
        | some entry => some (entry.plan, entry.baseInput)
        | none => env.snapshot
      match planEntry with
      | none =>
        ⟨.ok (.market fallback (some "Plan expired. Please submit a new query.")), [], st1⟩
      | some pe =>
        let reviewPair : Option ReviewValue × List UpCall :=
          match env.reviewQ with
          | .timeout => (none, [])
          | .threw _ => (none, [.assessCall])
          | .ok v => (some v, [.assessCall])
        let review := reviewPair.1
        let calls0 := reviewPair.2
        if (match review with | some r => r.mode == "replan" | none => false) then
          match env.replanQ with
          | .timeout =>
            ⟨.ok (.market fallback (some "Server busy. Please retry.")), calls0, st1⟩
          | .threw m => ⟨.ok (.market fallback (some m)), calls0 ++ [.planCall], st1⟩
          | .ok v =>
            let replanInput := buildReplanInput pe.2 input
            let updatedPlanId := if planId ≠ "" then planId else env.newPlanId
            ⟨.ok (.plan v updatedPlanId replanInput), calls0 ++ [.planCall],
             { st1 with
               planStore := storePlan st1.planStore updatedPlanId v replanInput now }⟩
        else
          match env.executeQ with
          | .timeout =>
            ⟨.ok (.market fallback (some "Server busy. Please retry.")), calls0, st1⟩
          | .threw m => ⟨.ok (.market fallback (some m)), calls0 ++ [.executeCall], st1⟩
          | .ok v =>
            let rr := env.repair v
            let st2 := { st1 with
              planStore := if planId ≠ "" then planStoreDelete st1.planStore planId
                           else st1.planStore }
            ⟨.ok (.market rr.1 none), calls0 ++ [.executeCall] ++ rr.2, st2⟩
    else
      let fc := findCachedPayload st.inputCache st.categoryCache input now false
      let st1 := { st with inputCache := fc.2.1, categoryCache := fc.2.2 }
      match fc.1 with
      | some hit => ⟨.ok (.market hit.payload none), [], st1⟩
      | none =>
        match env.analyzeQ with
        | .timeout =>
          let sc := findCachedPayload st1.inputCache st1.categoryCache input now true
          let st2 := { st1 with inputCache := sc.2.1, categoryCache := sc.2.2 }
          match sc.1 with
          | some hit => ⟨.ok (.market hit.payload none), [], st2⟩
          | none =>
            ⟨.ok (.market fallback (some "Server busy. Please retry.")), [], st2⟩
        | .threw m => ⟨.ok (.market fallback (some m)), [.analyzeCall], st1⟩
        | .ok v =>
          let stored := storeCachedPayload st1.inputCache st1.categoryCache input v now
          ⟨.ok (.market v none), [.analyzeCall],
           { st1 with inputCache := stored.1, categoryCache := stored.2 }⟩

/-! ## Supporting lemmas -/

theorem indexOfAux_none_not_mem (l : List String) (x : String) :
    indexOfAux l x = none → x ∉ l := by
  induction l with
  | nil => intro _; simp
  | cons a t ih =>
    intro h
    simp only [indexOfAux] at h
    by_cases hax : a = x
    · rw [if_pos hax] at h; exact absurd h (by simp)
    · rw [if_neg hax, Option.map_eq_none'] at h
      intro hx
      rcases List.mem_cons.mp hx with h1 | h1
      · exact hax h1.symm
      · exact ih h h1

theorem indexOfAux_drop_not_mem (l : List String) (x : String) :
    ∀ i, l.Nodup → indexOfAux l x = some i → x ∉ l.drop (i + 1) := by
  induction l with
  | nil => intro i _ h; simp [indexOfAux] at h
  | cons a t ih =>
    intro i hnd h
    simp only [indexOfAux] at h
    by_cases hax : a = x
    · rw [if_pos hax] at h
      have hi : i = 0 := by simpa using h.symm
      subst hi
      have hat : a ∉ t := (List.nodup_cons.mp hnd).1
      simpa [hax] using hat
    · rw [if_neg hax] at h
      cases he : indexOfAux t x with
      | none => rw [he] at h; simp at h
      | some j =>
        rw [he] at h
        simp only [Option.map_some', Option.some.injEq] at h
        subst h
        have := ih j (List.nodup_cons.mp hnd).2 he
        simpa [List.drop_succ_cons] using this

/-- Membership after a `Map.set`-style insert: the value is the inserted
entry or was already present. -/
theorem mem_mapSet (m : CacheMap) (key : String) (entry : CacheEntry)
    (k : String) (e : CacheEntry) (h : (k, e) ∈ mapSet m key entry) :
    e = entry ∨ (k, e) ∈ m := by
  rcases List.mem_cons.mp h with h1 | h1
  · left; exact congrArg Prod.snd h1
  · right; exact List.mem_of_mem_filter h1

/-- Every payload in the cache map has `results` mode. -/
def cacheResultsOnly (m : CacheMap) : Prop :=
  ∀ k e, (k, e) ∈ m → e.payload.modeString = "results"

theorem getCachedEntry_results (m : CacheMap) (key : String) (now : Int)
    (allowStale : Bool) (hm : cacheResultsOnly m) (pl : Payload) (st : Bool)
    (m2 : CacheMap) (h : getCachedEntry m key now allowStale = (some (pl, st), m2)) :
    pl.modeString = "results" := by
  cases hg : mapGet m key with
  | none => simp only [getCachedEntry, hg] at h; simp at h
  | some entry =>
    simp only [getCachedEntry, hg] at h
    have hmem : ∃ p, p ∈ m ∧ p.2 = entry := by
      unfold mapGet at hg
      rcases Option.map_eq_some'.mp hg with ⟨p, hp, hpe⟩
      exact ⟨p, List.mem_of_find?_eq_some hp, hpe⟩
    rcases hmem with ⟨⟨kk, ee⟩, hpm, hpe⟩
    have hres : entry.payload.modeString = "results" := by
      have := hm kk ee hpm
      rw [show ee = entry from hpe] at this
      exact this
    split at h
    · exact absurd (congrArg Prod.fst h) (by simp)
    · have hfst := congrArg Prod.fst h
      simp only [Option.some.injEq, Prod.mk.injEq] at hfst
      rw [← hfst.1]
      exact hres

/-! ## Claims -/

/-- C3: for every non-zero deadline and current time, the per-call timeout
function returns the no-time signal 0 once the remaining time
`deadline - now` is at most the safety margin, and otherwise returns the
remaining time minus the safety margin, clamped between the minimum call
timeout and the per-call timeout ceiling. -/
theorem c3_getRequestTimeout_spec (deadline now : Int) (hd : deadline ≠ 0) :
    (deadline - now ≤ SAFETY_MARGIN_MS → getRequestTimeout deadline now = 0) ∧
    (SAFETY_MARGIN_MS < deadline - now →
      getRequestTimeout deadline now =
        min REQUEST_TIMEOUT_MS
          (max REQUEST_MIN_TIMEOUT_MS (deadline - now - SAFETY_MARGIN_MS))) := by
  simp only [getRequestTimeout, timeLeftMs, SAFETY_MARGIN_MS, REQUEST_TIMEOUT_MS,
    REQUEST_MIN_TIMEOUT_MS, if_neg hd]
  constructor
  · intro h
    rw [if_pos (by omega)]
  · intro h
    rw [if_neg (by omega)]
    have hmax : max (0 : Int) (deadline - now) = deadline - now := by omega
    rw [hmax]

/-- Witness for C3: a concrete non-zero deadline with ample slack. -/
theorem c3_getRequestTimeout_spec_w :
    getRequestTimeout 55000 10000 =
      min REQUEST_TIMEOUT_MS
        (max REQUEST_MIN_TIMEOUT_MS (55000 - 10000 - SAFETY_MARGIN_MS)) :=
  (c3_getRequestTimeout_spec 55000 10000 (by decide)).2 (by decide)

/-- C8: for every non-empty URL, the citation reachability check reports
broken (ok = false) exactly when the HEAD probe definitively returns 404, or
returns 403/405 and the GET fallback returns 404; a thrown network error or
timeout yields the fail-open OK result, and every other status is treated
as reachable. -/
theorem c8_checkUrl_spec (url : String) (probes : UrlProbes) (h : url ≠ "") :
    ((checkUrl url probes).ok = false ↔
      probes.headResult = .status 404 ∨
        ((probes.headResult = .status 403 ∨ probes.headResult = .status 405) ∧
          probes.getResult = .status 404)) ∧
    (probes.headResult = .netError → checkUrl url probes = ⟨true, 0, true⟩) := by
  obtain ⟨hd, gres⟩ := probes
  cases hd with
  | netError =>
    exact ⟨by simp [checkUrl, if_neg h], fun _ => by simp [checkUrl, if_neg h]⟩
  | status n =>
    refine ⟨?_, by intro hcontr; simp at hcontr⟩
    by_cases h45 : n = 405 ∨ n = 403
    · cases gres with
      | netError =>
        rcases h45 with h45 | h45 <;> subst h45 <;> simp [checkUrl, if_neg h]
      | status g =>
        by_cases hg : g = 404
        · subst hg
          rcases h45 with h45 | h45 <;> subst h45 <;> simp [checkUrl, if_neg h]
        · rcases h45 with h45 | h45 <;> subst h45 <;> simp [checkUrl, if_neg h, hg]
    · by_cases h404 : n = 404
      · subst h404; simp [checkUrl, if_neg h]
      · have hn45 : n ≠ 405 := fun hc => h45 (Or.inl hc)
        have hn43 : n ≠ 403 := fun hc => h45 (Or.inr hc)
        simp only [checkUrl, if_neg h, if_neg h45, if_neg h404,
          ProbeOutcome.status.injEq]
        constructor
        · intro hfalse; simp at hfalse
        · intro hr
          rcases hr with hr | ⟨hr, _⟩
          · exact absurd hr h404
          · rcases hr with hr | hr
            · exact absurd hr hn43
            · exact absurd hr hn45

/-- Witness for C8: HEAD 403 followed by GET 404 is reported broken. -/
theorem c8_checkUrl_spec_w :
    (checkUrl "https://example.com/x" ⟨.status 403, .status 404⟩).ok = false :=
  ((c8_checkUrl_spec "https://example.com/x" ⟨.status 403, .status 404⟩
      (by decide)).1).mpr (Or.inr ⟨Or.inl rfl, rfl⟩)

/-- C2 counterexample: with the last model of the fixed priority list as the
current model and only that model available, the fallback selector returns
exactly the model identifier it was given. -/
theorem c2_pickNext_counterexample :
    pickNextModelInOrder "gemini-1.5-flash" ["gemini-1.5-flash"] =
      "gemini-1.5-flash" := by decide

/-- C2 (amended): the fallback selector walks the priority list starting
after the current model's position and returns the first candidate present
in the availability set (every candidate counting as present when the set
is empty); such a candidate is never the model it was given.  But when no
candidate after that position is available, the selector returns the
(sanitized) current model itself instead of never returning it. -/
theorem c2_pickNext_spec (currentModel : String) (models : List String) :
    (∀ c,
      (orderedFallbackModels.drop (fallbackStartIndex currentModel)).find?
          (fun m => models.isEmpty || models.contains m) = some c →
        pickNextModelInOrder currentModel models = c ∧
          c ≠ sanitizeModelName currentModel) ∧
    ((orderedFallbackModels.drop (fallbackStartIndex currentModel)).find?
          (fun m => models.isEmpty || models.contains m) = none →
      pickNextModelInOrder currentModel models = sanitizeModelName currentModel) := by
  constructor
  · intro c hc
    refine ⟨by unfold pickNextModelInOrder; rw [hc], ?_⟩
    have hmem : c ∈ orderedFallbackModels.drop (fallbackStartIndex currentModel) :=
      List.mem_of_find?_eq_some hc
    have hnd : orderedFallbackModels.Nodup := by decide
    intro hEq
    cases hidx : indexOfAux orderedFallbackModels (sanitizeModelName currentModel) with
    | some i =>
      have hnotin : sanitizeModelName currentModel ∉ orderedFallbackModels.drop (i + 1) :=
        indexOfAux_drop_not_mem _ _ i hnd hidx
      apply hnotin
      have hfs : fallbackStartIndex currentModel = i + 1 := by
        simp [fallbackStartIndex, hidx]
      rw [← hfs, ← hEq]
      exact hmem
    | none =>
      have hnotin : sanitizeModelName currentModel ∉ orderedFallbackModels :=
        indexOfAux_none_not_mem _ _ hidx
      apply hnotin
      rw [← hEq]
      exact List.mem_of_mem_drop hmem
  · intro hn
    unfold pickNextModelInOrder
    rw [hn]

/-- Witness for C2 (amended): from the default model with an empty
availability list, the selector steps to the second priority model, which
differs from the current one. -/
theorem c2_pickNext_spec_w :
    pickNextModelInOrder "gemini-3-flash-preview" [] = "gemini-2.5-flash-lite" ∧
      "gemini-2.5-flash-lite" ≠ sanitizeModelName "gemini-3-flash-preview" :=
  (c2_pickNext_spec "gemini-3-flash-preview" []).1 "gemini-2.5-flash-lite" (by decide)

/-- C10: only results-mode payloads are ever inserted into the input cache
or the category cache — inserting any other payload leaves both caches
unchanged, the results-only invariant is preserved by every store, and a
cache hit from caches satisfying the invariant never returns an
apology-mode payload. -/
theorem c10_cache_only_results :
    (∀ ic cc input p now, Payload.modeString p ≠ "results" →
        storeCachedPayload ic cc input p now = (ic, cc)) ∧
    (∀ ic cc input p now, cacheResultsOnly ic → cacheResultsOnly cc →
        cacheResultsOnly (storeCachedPayload ic cc input p now).1 ∧
        cacheResultsOnly (storeCachedPayload ic cc input p now).2) ∧
    (∀ ic cc input now allowStale hit rest,
        cacheResultsOnly ic → cacheResultsOnly cc →
        findCachedPayload ic cc input now allowStale = (some hit, rest) →
        hit.payload.modeString = "results") := by
  refine ⟨?_, ?_, ?_⟩
  · intro ic cc input p now hmode
    simp [storeCachedPayload, hmode]
  · intro ic cc input p now hic hcc
    by_cases hmode : Payload.modeString p = "results"
    · cases p with
      | apology a => simp [Payload.modeString] at hmode
      | results category rb cs =>
        constructor
        · intro k e hke
          simp only [storeCachedPayload, hmode, ne_eq, not_true_eq_false,
            if_false] at hke
          split at hke <;>
          · rcases mem_mapSet _ _ _ _ _ hke with he | he
            · rw [he]; rfl
            · exact hic k e he
        · intro k e hke
          simp only [storeCachedPayload, hmode, ne_eq, not_true_eq_false,
            if_false] at hke
          split at hke
          · rcases mem_mapSet _ _ _ _ _ hke with he | he
            · rw [he]; rfl
            · exact hcc k e he
          · exact hcc k e hke
    · simp only [storeCachedPayload, if_pos hmode]
      exact ⟨hic, hcc⟩
  · intro ic cc input now allowStale hit rest hic hcc h
    by_cases hin : input = ""
    · simp [findCachedPayload, hin] at h
    · simp only [findCachedPayload, if_neg hin] at h
      cases hg1 : getCachedEntry ic (normalizeKey input) now allowStale with
      | mk o1 ic2 =>
        rw [hg1] at h
        cases o1 with
        | some pr =>
          simp only at h
          have hp : hit.payload = pr.1 := by
            have := congrArg Prod.fst h
            simp at this
            rw [← this]
          rw [hp]
          exact getCachedEntry_results ic _ now allowStale hic pr.1 pr.2 ic2
            (by rw [hg1])
        | none =>
          simp only at h
          cases hg2 : getCachedEntry cc (normalizeKey input) now allowStale with
          | mk o2 cc2 =>
            rw [hg2] at h
            cases o2 with
            | some pr =>
              simp only at h
              have hp : hit.payload = pr.1 := by
                have := congrArg Prod.fst h
                simp at this
                rw [← this]
              rw [hp]
              exact getCachedEntry_results cc _ now allowStale hcc pr.1 pr.2 cc2
                (by rw [hg2])
            | none => simp at h

/-- Witness for C10: an apology payload is not stored; a results payload is
found back with results mode. -/
theorem c10_cache_only_results_w :
    storeCachedPayload [] [] "crm" buildApologyPayload 0 = ([], []) :=
  c10_cache_only_results.1 [] [] "crm" buildApologyPayload 0 (by decide)

instance : DecidableEq (Except String Payload) :=
  fun a b =>
    match a, b with
    | .ok x, .ok y =>
      if h : x = y then isTrue (by rw [h]) else isFalse (by intro hc; cases hc; exact h rfl)
    | .error x, .error y =>
      if h : x = y then isTrue (by rw [h]) else isFalse (by intro hc; cases hc; exact h rfl)
    | .ok _, .error _ => isFalse (by intro hc; cases hc)
    | .error _, .ok _ => isFalse (by intro hc; cases hc)

/-! ### Concrete data for end-to-end scenario C (claim C1): the upstream
returns HTTP 503 with body `{"error":{"message":"model overloaded"}}` on the
first generateContent call and a clean results response on the next call. -/

/-- The JSON text the successful response carries in its candidate parts. -/
def c1Text : String :=
  "\x7b\"mode\":\"results\",\"category\":\"CRM\",\"companies\":[" ++
  "\x7b\"name\":\"A1\",\"metrics\":[\x7b\"value\":120,\"source_url\":\"https://a.io/1\"\x7d," ++
  "\x7b\"value\":23,\"source_url\":\"https://a.io/2\"\x7d]\x7d," ++
  "\x7b\"name\":\"A2\",\"metrics\":[\x7b\"value\":95,\"source_url\":\"https://a.io/3\"\x7d," ++
  "\x7b\"value\":17,\"source_url\":\"https://a.io/4\"\x7d]\x7d," ++
  "\x7b\"name\":\"A3\",\"metrics\":[\x7b\"value\":60,\"source_url\":\"https://a.io/5\"\x7d," ++
  "\x7b\"value\":11,\"source_url\":\"https://a.io/6\"\x7d]\x7d]\x7d"

def c1MetricJS (v : Int) (url : String) : JSValue :=
  .obj [("value", .num (.fin v)), ("source_url", .str url)]

def c1CompanyJS (name : String) (v1 v2 : Int) (u1 u2 : String) : JSValue :=
  .obj [("name", .str name), ("metrics", .arr [c1MetricJS v1 u1, c1MetricJS v2 u2])]

/-- The object `JSON.parse` yields for `c1Text`. -/
def c1Parsed : JSValue :=
  .obj [("mode", .str "results"), ("category", .str "CRM"),
        ("companies", .arr
          [c1CompanyJS "A1" 120 23 "https://a.io/1" "https://a.io/2",
           c1CompanyJS "A2" 95 17 "https://a.io/3" "https://a.io/4",
           c1CompanyJS "A3" 60 11 "https://a.io/5" "https://a.io/6"])]

def c1ErrorBody : JSValue :=
  .obj [("error", .obj [("message", .str "model overloaded")])]

def c1SuccessBody : JSValue :=
  .obj [("candidates", .arr
    [.obj [("content", .obj [("parts", .arr [.obj [("text", .str c1Text)]])])]])]

/-- Scenario C script: 503 overloaded, then success; each call takes 100ms,
leaving ample deadline slack. -/
def c1Script : List ScriptEntry :=
  [⟨100, .http 503 (some c1ErrorBody)⟩, ⟨100, .http 200 (some c1SuccessBody)⟩]

/-- Scenario C environment: API key present, model listing empty (every
fallback candidate counts as available), fixed jitter, and `JSON.parse`
mapping the response text to its parsed object. -/
def c1Env : GemEnv :=
  ⟨true, [], fun _ => 37, fun s => if s = c1Text then some c1Parsed else none⟩

def c1Run : Except String Payload × List GemEvent :=
  analyzeMarket c1Env "crm tools" c1Script 0

def isSleepEvent : GemEvent → Bool
  | .sleep _ => true
  | _ => false

def isOverloadedRetryEvent : GemEvent → Bool
  | .overloadedRetry _ _ _ => true
  | _ => false

def requestModels (events : List GemEvent) : List String :=
  events.filterMap (fun e =>
    match e with
    | .request m _ _ => some m
    | _ => none)

set_option maxRecDepth 40000 in
/-- C1 counterexample: in the multi-turn engine (overload retry budget 0),
a run whose upstream returns an overloaded HTTP 503 and then succeeds
performs zero backoff sleeps — not exactly one — emits no overloaded-retry
event at all, and re-calls a different model rather than the same one
(while still ending in success). -/
theorem c1_counterexample :
    c1Run.2.countP isSleepEvent = 0 ∧
    c1Run.2.countP isOverloadedRetryEvent = 0 ∧
    requestModels c1Run.2 = ["gemini-3-flash-preview", "gemini-2.5-flash-lite"] ∧
    c1Run.1 = .ok (normalizeOutput c1Parsed) := by
  refine ⟨by decide, by decide, by decide, by decide⟩

set_option maxRecDepth 40000 in
/-- C1 (amended): in the engine the handlers use (the multi-turn variant,
whose overload retry budget `OVERLOAD_MAX_RETRIES` is 0), an upstream 503
overload followed by a success triggers no backoff sleep; instead the
orchestrator switches once to the next fallback model in priority order and
re-calls it, and the trace records the overload-fallback event after the
503 error event and before the success response event, with the run ending
in the normalized successful payload. -/
theorem c1_amended :
    c1Run.1 = .ok (normalizeOutput c1Parsed) ∧
    c1Run.2.countP isSleepEvent = 0 ∧
    c1Run.2 =
      [.request DEFAULT_MODEL 1 false,
       .errorEvent 503 "model overloaded",
       .overloadFallback DEFAULT_MODEL "gemini-2.5-flash-lite",
       .request "gemini-2.5-flash-lite" 1 false,
       .responseEvent 200] ∧
    pickNextModelInOrder DEFAULT_MODEL [] = "gemini-2.5-flash-lite" ∧
    "gemini-2.5-flash-lite" ≠ DEFAULT_MODEL := by
  refine ⟨by decide, by decide, by decide, by decide, by decide⟩

theorem normalizeCompany_bounds (raw : JSValue) (c : Company)
    (h : normalizeCompany raw = some c) :
    c.metrics.length ≤ 2 ∧ c.sources.length ≤ 2 := by
  simp only [normalizeCompany] at h
  split at h
  · simp at h
  · split at h
    · simp at h
    · injection h with h2
      subst h2
      constructor
      · cases hm : raw.get "metrics" <;> simp [List.length_take]
      · cases hs : raw.get "sources" <;> simp [List.length_take]

/-- C6: for every input value given to the normalizer, every company in the
normalized output has at most 2 metrics and at most 2 sources. -/
theorem c6_normalize_truncates (v : JSValue) (c : Company)
    (hc : c ∈ (normalizeOutput v).companiesOf) :
    c.metrics.length ≤ 2 ∧ c.sources.length ≤ 2 := by
  simp only [normalizeOutput] at hc
  split at hc
  · simp [Payload.companiesOf] at hc
  · split at hc
    · simp [Payload.companiesOf] at hc
    · simp only [Payload.companiesOf] at hc
      rcases List.mem_filterMap.mp hc with ⟨raw, _, hnc⟩
      exact normalizeCompany_bounds raw c hnc

def c6Input : JSValue :=
  .obj [("companies", .arr [.obj
    [("name", .str "Acme"),
     ("metrics", .arr [c1MetricJS 1 "https://a.io/1", c1MetricJS 2 "https://a.io/2",
                       c1MetricJS 3 "https://a.io/3"]),
     ("sources", .arr [.obj [("name", .str "S1"), ("url", .str "https://a.io/4")],
                       .obj [("name", .str "S2"), ("url", .str "https://a.io/5")],
                       .obj [("name", .str "S3"), ("url", .str "https://a.io/6")]])]])]

def c6Company : Company :=
  ⟨"Acme", 0,
   [⟨"Metric", 1, "", none, "Source", "https://a.io/1"⟩,
    ⟨"Metric", 2, "", none, "Source", "https://a.io/2"⟩],
   "",
   [⟨"S1", "https://a.io/4"⟩, ⟨"S2", "https://a.io/5"⟩]⟩

set_option maxRecDepth 40000 in
/-- Witness for C6: a company with 3 raw metrics and 3 raw sources is
truncated to 2 of each. -/
theorem c6_normalize_truncates_w :
    c6Company.metrics.length ≤ 2 ∧ c6Company.sources.length ≤ 2 :=
  c6_normalize_truncates c6Input c6Company (by decide)

theorem normalizeRedirectCandidate_starts (s : String)
    (h : normalizeRedirectCandidate s ≠ "") :
    strStartsWith (normalizeRedirectCandidate s) "http://" = true ∨
    strStartsWith (normalizeRedirectCandidate s) "https://" = true := by
  by_cases hs : s = ""
  · simp [normalizeRedirectCandidate, hs] at h
  · simp only [normalizeRedirectCandidate, if_neg hs] at h ⊢
    by_cases hb : (strStartsWith (decodeStep (decodeStep s)) "http://" ||
        strStartsWith (decodeStep (decodeStep s)) "https://") = true
    · rw [if_pos hb]
      exact Bool.or_eq_true _ _ |>.mp hb
    · rw [if_neg hb] at h
      exact absurd rfl h

theorem redirectCandidateFor_starts (value key n : String)
    (h : redirectCandidateFor value key = some n) :
    strStartsWith n "http://" = true ∨ strStartsWith n "https://" = true := by
  simp only [redirectCandidateFor] at h
  by_cases hz : normalizeRedirectCandidate ((searchParamGet value key).getD "") = ""
  · rw [if_pos hz] at h; exact absurd h (by simp)
  · rw [if_neg hz] at h
    have hne := Option.some.inj h
    rw [← hne]
    exact normalizeRedirectCandidate_starts _ hz

theorem unwrapRedirectUrl_spec (t : String) :
    unwrapRedirectUrl t = t ∨
    strStartsWith (unwrapRedirectUrl t) "http://" = true ∨
    strStartsWith (unwrapRedirectUrl t) "https://" = true := by
  by_cases ht : t = ""
  · left; simp [unwrapRedirectUrl, ht]
  · cases hh : hostOf t with
    | none => left; simp [unwrapRedirectUrl, if_neg ht, hh]
    | some host =>
      by_cases hv : isVertexHost host = false
      · left; simp [unwrapRedirectUrl, if_neg ht, hh, hv]
      · cases hf : redirectParamKeys.findSome? (redirectCandidateFor t) with
        | none => left; simp [unwrapRedirectUrl, if_neg ht, hh, if_neg hv, hf]
        | some n =>
          right
          have hres : unwrapRedirectUrl t = n := by
            simp [unwrapRedirectUrl, if_neg ht, hh, if_neg hv, hf]
          rw [hres]
          rcases List.exists_of_findSome?_eq_some hf with ⟨key, _, hn⟩
          exact redirectCandidateFor_starts t key n hn

theorem safeUrl_spec (v : JSValue) :
    safeUrl v = "" ∨ strStartsWith (safeUrl v) "http://" = true ∨
      strStartsWith (safeUrl v) "https://" = true := by
  cases v with
  | str s =>
    simp only [safeUrl]
    by_cases hb : (strStartsWith (strTrim s) "http://" ||
        strStartsWith (strTrim s) "https://") = true
    · rw [if_pos hb]
      right
      by_cases hz : unwrapRedirectUrl (strTrim s) = ""
      · rw [if_pos hz]
        exact Bool.or_eq_true _ _ |>.mp hb
      · rw [if_neg hz]
        rcases unwrapRedirectUrl_spec (strTrim s) with he | hst
        · rw [he]
          exact Bool.or_eq_true _ _ |>.mp hb
        · exact hst
    · rw [if_neg hb]; left; rfl
  | undefinedV => left; rfl
  | null => left; rfl
  | bool b => left; rfl
  | num n => left; rfl
  | arr xs => left; rfl
  | obj fields => left; rfl

theorem normalizeMetric_url (raw : JSValue) (m : Metric)
    (h : normalizeMetric raw = some m) :
    m.source_url = safeUrl (raw.get "source_url") ∧ m.source_url ≠ "" := by
  cases htn : toNumber (raw.get "value") with
  | none => simp [normalizeMetric, htn] at h
  | some value =>
    simp only [normalizeMetric, htn] at h
    split at h
    · simp at h
    · split at h
      · simp at h
      · injection h with h2
        subst h2
        exact ⟨rfl, by assumption⟩

theorem normalizeCompany_metric_from (raw : JSValue) (c : Company)
    (h : normalizeCompany raw = some c) (met : Metric) (hm : met ∈ c.metrics) :
    ∃ rawm, normalizeMetric rawm = some met := by
  simp only [normalizeCompany] at h
  split at h
  · simp at h
  · split at h
    · simp at h
    · injection h with h2
      subst h2
      simp only at hm
      cases hq : raw.get "metrics" with
      | arr xs =>
        rw [hq] at hm
        simp only at hm
        rcases List.mem_filterMap.mp (List.mem_of_mem_take hm) with ⟨rawm, _, hr⟩
        exact ⟨rawm, hr⟩
      | undefinedV => rw [hq] at hm; simp at hm
      | null => rw [hq] at hm; simp at hm
      | bool b => rw [hq] at hm; simp at hm
      | num n => rw [hq] at hm; simp at hm
      | str s => rw [hq] at hm; simp at hm
      | obj fields => rw [hq] at hm; simp at hm

/-- C7: a raw metric entry whose value is not coercible to a finite number,
or whose source URL is missing or does not start with http:// or https://,
is dropped by the normalizer and never appears in the output — every metric
of every normalized company carries an http(s) source URL. -/
theorem c7_normalizeMetric_drops (m : JSValue)
    (h : toNumber (m.get "value") = none ∨ safeUrl (m.get "source_url") = "") :
    normalizeMetric m = none ∧
    (∀ v c met, c ∈ (normalizeOutput v).companiesOf → met ∈ c.metrics →
      strStartsWith met.source_url "http://" = true ∨
      strStartsWith met.source_url "https://" = true) := by
  constructor
  · cases htn : toNumber (m.get "value") with
    | none => simp [normalizeMetric, htn]
    | some value =>
      rcases h with h | h
      · rw [htn] at h; exact absurd h (by simp)
      · simp [normalizeMetric, htn, h]
  · intro v c met hc hm
    simp only [normalizeOutput] at hc
    split at hc
    · simp [Payload.companiesOf] at hc
    · split at hc
      · simp [Payload.companiesOf] at hc
      · simp only [Payload.companiesOf] at hc
        rcases List.mem_filterMap.mp hc with ⟨raw, _, hnc⟩
        rcases normalizeCompany_metric_from raw c hnc met hm with ⟨rawm, hr⟩
        rcases normalizeMetric_url rawm met hr with ⟨hurl, hne⟩
        rcases safeUrl_spec (rawm.get "source_url") with hz | hst
        · rw [hurl] at hne; exact absurd hz hne
        · rw [hurl]; exact hst

/-- Witness for C7: a metric with a non-numeric value is dropped. -/
theorem c7_normalizeMetric_drops_w :
    normalizeMetric (.obj [("value", .str "abc"),
      ("source_url", .str "https://a.io/1")]) = none :=
  (c7_normalizeMetric_drops
    (.obj [("value", .str "abc"), ("source_url", .str "https://a.io/1")])
    (Or.inl (by decide))).1

/-- The four defect classes the spec names for the validator (stated from
the spec's words, for comparison with the code's validators). -/
def specDefectClass (d : String) : Prop :=
  d = "Missing category" ∨ d = "Need at least 3 companies" ∨
  List.IsSuffix " missing name".toList d.toList ∨
  List.IsSuffix " needs 2 metrics".toList d.toList

instance (d : String) : Decidable (specDefectClass d) := by
  unfold specDefectClass
  infer_instance

def c5Metric : Metric := ⟨"M", 1, "", none, "S", "https://a.io/1"⟩

def c5Company (n : String) : Company := ⟨n, 1, [c5Metric, c5Metric], "", []⟩

def c5Payload : Payload :=
  .results "CRM" none [c5Company "A", c5Company "B", c5Company "C"]

/-- The raw model output whose normalization is `c5Payload`, showing the
counterexample payload is reachable through the normalizer. -/
def c5Raw : JSValue :=
  .obj [("mode", .str "results"), ("category", .str "CRM"),
        ("companies", .arr
          [.obj [("name", .str "A"), ("rank", .num (.fin 1)),
                 ("metrics", .arr [.obj [("label", .str "M"), ("value", .num (.fin 1)),
                   ("source_name", .str "S"), ("source_url", .str "https://a.io/1")],
                   .obj [("label", .str "M"), ("value", .num (.fin 1)),
                   ("source_name", .str "S"), ("source_url", .str "https://a.io/1")]])],
           .obj [("name", .str "B"), ("rank", .num (.fin 1)),
                 ("metrics", .arr [.obj [("label", .str "M"), ("value", .num (.fin 1)),
                   ("source_name", .str "S"), ("source_url", .str "https://a.io/1")],
                   .obj [("label", .str "M"), ("value", .num (.fin 1)),
                   ("source_name", .str "S"), ("source_url", .str "https://a.io/1")]])],
           .obj [("name", .str "C"), ("rank", .num (.fin 1)),
                 ("metrics", .arr [.obj [("label", .str "M"), ("value", .num (.fin 1)),
                   ("source_name", .str "S"), ("source_url", .str "https://a.io/1")],
                   .obj [("label", .str "M"), ("value", .num (.fin 1)),
                   ("source_name", .str "S"), ("source_url", .str "https://a.io/1")]])]])]

set_option maxRecDepth 40000 in
/-- C5 counterexample: the single-shot variant's validator
(src/lib/gemini.js:411) reports a defect outside the four claimed classes —
a normalizer-reachable results payload with three named companies, two
metrics each, but an empty value proposition yields a
missing-value-prop defect. -/
theorem c5_counterexample :
    normalizeOutput c5Raw = c5Payload ∧
    "Company A missing value prop" ∈ V1.validateOutput c5Payload ∧
    ¬ specDefectClass "Company A missing value prop" := by
  refine ⟨by decide, by decide, by decide⟩

theorem suffix_append_toList (a b : String) :
    List.IsSuffix b.toList (a ++ b).toList :=
  ⟨a.toList, (String.data_append a b).symm⟩

/-- C5 (amended): for the multi-turn engine's validator
(src/lib/gemini.js:1635), an apology-mode payload yields an empty defect
list; a results-mode payload with fewer than 3 companies yields the
fewer-than-3-companies defect (preceded only by the missing-category defect
when the category is empty), short-circuiting all per-company checks; and
every reported defect is one of the four classes: missing category, fewer
than 3 companies, per-company missing name, per-company fewer than 2
metrics.  (The single-shot variant additionally reports per-company
missing-value-prop and value-prop-without-numeric-evidence defects.) -/
theorem c5_validateOutput_spec (p : Payload) :
    (∀ a, p = .apology a → validateOutput p = []) ∧
    (∀ cat rb cs, p = .results cat rb cs → cs.length < 3 →
      validateOutput p =
        (if cat = "" then ["Missing category"] else []) ++
          ["Need at least 3 companies"]) ∧
    (∀ d, d ∈ validateOutput p → specDefectClass d) := by
  refine ⟨?_, ?_, ?_⟩
  · intro a ha; subst ha; rfl
  · intro cat rb cs hp hlen; subst hp
    simp only [validateOutput]
    rw [if_pos hlen]
  · intro d hd
    cases p with
    | apology a => simp [validateOutput] at hd
    | results cat rb cs =>
      simp only [validateOutput] at hd
      have hcat : d ∈ (if cat = "" then ["Missing category"] else []) →
          specDefectClass d := by
        intro hdc
        split at hdc
        · left; simpa using hdc
        · simp at hdc
      split at hd
      · rcases List.mem_append.mp hd with hd | hd
        · exact hcat hd
        · right; left; simpa using hd
      · rcases List.mem_append.mp hd with hd | hd
        · exact hcat hd
        · rcases List.mem_flatMap.mp hd with ⟨pr, _, hd2⟩
          rcases List.mem_append.mp hd2 with hd3 | hd3
          · split at hd3
            · have hde : d = "Company " ++ toString (pr.1 + 1) ++ " missing name" := by
                simpa using hd3
              right; right; left
              rw [hde]
              exact suffix_append_toList _ _
            · simp at hd3
          · split at hd3
            · have hde : d = "Company " ++
                  (if pr.2.name = "" then toString (pr.1 + 1) else pr.2.name) ++
                  " needs 2 metrics" := by
                simpa using hd3
              right; right; right
              rw [hde]
              exact suffix_append_toList _ _
            · simp at hd3

/-- Witness for C5 (amended): the short-circuit shape at a one-company
payload with a non-empty category. -/
theorem c5_validateOutput_spec_w :
    validateOutput (.results "CRM" none [c5Company "A"]) =
      ["Need at least 3 companies"] := by
  have h := (c5_validateOutput_spec (.results "CRM" none [c5Company "A"])).2.1
    "CRM" none [c5Company "A"] rfl (by decide)
  rw [if_neg (by decide)] at h
  simpa using h

theorem nodup_append_single {l : List Nat} {a : Nat} (hl : l.Nodup) (ha : a ∉ l) :
    (l ++ [a]).Nodup := by
  rw [List.nodup_append]
  refine ⟨hl, List.nodup_singleton a, ?_⟩
  intro x hx hxa
  have hxa2 : x = a := by simpa using hxa
  exact ha (hxa2 ▸ hx)

/-- Run invariant of the admission gate: queued callers were never invoked,
active tasks were invoked, the wait queue and active set hold no
duplicates, and a caller with a timeout result was never invoked and is no
longer waiting. -/
def QInv (s : QState) : Prop :=
  (∀ id, id ∈ s.queue → id ∉ s.invoked) ∧
  (∀ id, id ∈ s.active → id ∈ s.invoked) ∧
  s.queue.Nodup ∧
  s.active.Nodup ∧
  (∀ id, (id, QRes.timeout) ∈ s.results → id ∉ s.invoked ∧ id ∉ s.queue)

theorem outcomeToRes_ne_timeout (out : TaskOutcome) : outcomeToRes out ≠ .timeout := by
  cases out <;> simp [outcomeToRes]

theorem queueStep_preserves (s : QState) (e : QEvent) (h : QInv s) :
    QInv (queueStep s e) := by
  obtain ⟨hqi, hai, hqn, han, ht⟩ := h
  cases e with
  | arrive id =>
    simp only [queueStep]
    by_cases hseen : s.seen id = true
    · rw [if_pos hseen]; exact ⟨hqi, hai, hqn, han, ht⟩
    · rw [if_neg hseen]
      have hfacts : id ∉ s.invoked ∧ id ∉ s.queue ∧ id ∉ s.results.map Prod.fst := by
        simp only [QState.seen, Bool.or_eq_true, decide_eq_true_eq] at hseen
        push_neg at hseen
        exact ⟨hseen.1.1, hseen.1.2, hseen.2⟩
      obtain ⟨hni, hnq, hnr⟩ := hfacts
      split
      · refine ⟨?_, ?_, hqn, ?_, ?_⟩
        · intro q hq
          intro hmem
          rcases List.mem_append.mp hmem with hmem | hmem
          · exact hqi q hq hmem
          · have : q = id := by simpa using hmem
            exact hnq (this ▸ hq)
        · intro a hmem
          rcases List.mem_append.mp hmem with hmem | hmem
          · exact List.mem_append.mpr (Or.inl (hai a hmem))
          · exact List.mem_append.mpr (Or.inr hmem)
        · exact nodup_append_single han (fun hc => hni (hai id hc))
        · intro rid hr
          have hrid : rid ≠ id := by
            intro hc
            exact hnr (List.mem_map.mpr ⟨(rid, QRes.timeout), hr, hc⟩)
          obtain ⟨h1, h2⟩ := ht rid hr
          refine ⟨?_, h2⟩
          intro hmem
          rcases List.mem_append.mp hmem with hmem | hmem
          · exact h1 hmem
          · exact hrid (by simpa using hmem)
      · refine ⟨?_, hai, ?_, han, ?_⟩
        · intro q hq
          rcases List.mem_append.mp hq with hq | hq
          · exact hqi q hq
          · have : q = id := by simpa using hq
            exact this ▸ hni
        · exact nodup_append_single hqn hnq
        · intro rid hr
          have hrid : rid ≠ id := by
            intro hc
            exact hnr (List.mem_map.mpr ⟨(rid, QRes.timeout), hr, hc⟩)
          obtain ⟨h1, h2⟩ := ht rid hr
          refine ⟨h1, ?_⟩
          intro hmem
          rcases List.mem_append.mp hmem with hmem | hmem
          · exact h2 hmem
          · exact hrid (by simpa using hmem)
  | fire id =>
    simp only [queueStep]
    by_cases hq : id ∈ s.queue
    · rw [if_pos hq]
      refine ⟨?_, hai, hqn.erase id, han, ?_⟩
      · intro q hqe
        exact hqi q (List.mem_of_mem_erase hqe)
      · intro rid hr
        rcases List.mem_cons.mp hr with hr | hr
        · have h1 : rid = id := congrArg Prod.fst hr
          subst h1
          refine ⟨hqi rid hq, ?_⟩
          intro hc
          exact ((hqn.mem_erase_iff).mp hc).1 rfl
        · obtain ⟨h1, h2⟩ := ht rid hr
          refine ⟨h1, ?_⟩
          intro hc
          exact h2 (List.mem_of_mem_erase hc)
    · rw [if_neg hq]; exact ⟨hqi, hai, hqn, han, ht⟩
  | complete id out =>
    simp only [queueStep]
    by_cases ha : id ∈ s.active
    · rw [if_pos ha]
      cases hsq : s.queue with
      | nil =>
        dsimp only
        refine ⟨?_, ?_, ?_, han.erase id, ?_⟩
        · intro q hq; simp at hq
        · intro a hmem; exact hai a (List.mem_of_mem_erase hmem)
        · simp
        · intro rid hr
          rcases List.mem_cons.mp hr with hr | hr
          · exact absurd (congrArg Prod.snd hr) (by simpa using (outcomeToRes_ne_timeout out).symm)
          · obtain ⟨h1, h2⟩ := ht rid hr
            exact ⟨h1, by simp⟩
      | cons w ws =>
        dsimp only
        have hwq : w ∈ s.queue := by rw [hsq]; exact List.mem_cons_self w ws
        have hwni : w ∉ s.invoked := hqi w hwq
        have hqnd : (w :: ws).Nodup := hsq ▸ hqn
        refine ⟨?_, ?_, (List.nodup_cons.mp hqnd).2, ?_, ?_⟩
        · intro q hq hmem
          have hqws : q ∈ ws := hq
          have hqq : q ∈ s.queue := by rw [hsq]; exact List.mem_cons_of_mem w hqws
          rcases List.mem_append.mp hmem with hmem | hmem
          · exact hqi q hqq hmem
          · have : q = w := by simpa using hmem
            exact (List.nodup_cons.mp hqnd).1 (this ▸ hqws)
        · intro a hmem
          rcases List.mem_append.mp hmem with hmem | hmem
          · exact List.mem_append.mpr (Or.inl (hai a (List.mem_of_mem_erase hmem)))
          · exact List.mem_append.mpr (Or.inr hmem)
        · refine nodup_append_single (han.erase id) ?_
          intro hc
          exact hwni (hai w (List.mem_of_mem_erase hc))
        · intro rid hr
          rcases List.mem_cons.mp hr with hr | hr
          · exact absurd (congrArg Prod.snd hr) (by simpa using (outcomeToRes_ne_timeout out).symm)
          · obtain ⟨h1, h2⟩ := ht rid hr
            have hrw : rid ≠ w := by
              intro hc
              exact h2 (hc ▸ hwq)
            constructor
            · intro hmem
              rcases List.mem_append.mp hmem with hmem | hmem
              · exact h1 hmem
              · exact hrw (by simpa using hmem)
            · intro hmem
              exact h2 (by rw [hsq]; exact List.mem_cons_of_mem w hmem)
    · rw [if_neg ha]; exact ⟨hqi, hai, hqn, han, ht⟩

theorem runQueue_inv (events : List QEvent) : QInv (runQueue events) := by
  suffices h : ∀ s, QInv s → QInv (events.foldl queueStep s) from
    h QState.initial ⟨by simp [QState.initial], by simp [QState.initial],
      by simp [QState.initial], by simp [QState.initial], by simp [QState.initial]⟩
  induction events with
  | nil => intro s hs; exact hs
  | cons e rest ih => intro s hs; exact ih (queueStep s e) (queueStep_preserves s e hs)

/-- C4: in every run of the admission gate, a caller that resolved with the
timeout status was never invoked; and when an admitted task completes —
whether it returned a value or threw — its slot is released (it leaves the
active set and the FIFO head waiter, if any, is admitted and invoked) and
the caller receives exactly the task's value or exception
(`outcomeToRes` maps a returned value to the ok result and a thrown message
to the propagated exception, unchanged). -/
theorem c4_queue_spec :
    (∀ events id, (id, QRes.timeout) ∈ (runQueue events).results →
        id ∉ (runQueue events).invoked) ∧
    (∀ s id out, QInv s → id ∈ s.active →
        (id, outcomeToRes out) ∈ (queueStep s (.complete id out)).results ∧
        id ∉ (queueStep s (.complete id out)).active ∧
        (∀ w ws, s.queue = w :: ws →
          w ∈ (queueStep s (.complete id out)).active ∧
          w ∈ (queueStep s (.complete id out)).invoked)) ∧
    (∀ v, outcomeToRes (.value v) = QRes.ok v) ∧
    (∀ m, outcomeToRes (.throws m) = QRes.threw m) := by
  refine ⟨?_, ?_, fun v => rfl, fun m => rfl⟩
  · intro events id hres
    exact ((runQueue_inv events).2.2.2.2 id hres).1
  · intro s id out hinv ha
    obtain ⟨hqi, hai, hqn, han, _⟩ := hinv
    simp only [queueStep, if_pos ha]
    cases hsq : s.queue with
    | nil =>
      dsimp only
      refine ⟨List.mem_cons_self _ _, ?_, ?_⟩
      · intro hc
        exact ((han.mem_erase_iff).mp hc).1 rfl
      · intro w ws hws
        simp at hws
    | cons w ws =>
      dsimp only
      have hwq : w ∈ s.queue := by rw [hsq]; exact List.mem_cons_self w ws
      refine ⟨List.mem_cons_self _ _, ?_, ?_⟩
      · intro hc
        rcases List.mem_append.mp hc with hc | hc
        · exact ((han.mem_erase_iff).mp hc).1 rfl
        · have hidw : id = w := by simpa using hc
          exact hqi w hwq (hidw ▸ hai id ha)
      · intro w2 ws2 hws
        injection hws with hw hwsr
        subst hw
        exact ⟨List.mem_append.mpr (Or.inr (by simp)),
               List.mem_append.mpr (Or.inr (by simp))⟩

def c4Trace : List QEvent :=
  [.arrive 1, .arrive 2, .arrive 3, .arrive 4, .fire 4, .complete 1 (.value 7)]

def c4State : QState := ⟨[2], [], [2], []⟩

/-- Witness for C4: with the concurrency cap 3, a fourth caller that times
out in the queue is never invoked, and completing an admitted task records
its value. -/
theorem c4_queue_spec_w :
    4 ∉ (runQueue c4Trace).invoked ∧
    (2, outcomeToRes (.value 7)) ∈ (queueStep c4State (.complete 2 (.value 7))).results :=
  ⟨c4_queue_spec.1 c4Trace 4 (by decide),
   (c4_queue_spec.2.1 c4State 2 (.value 7)
     ⟨fun id h => absurd h (by simp [c4State]),
      fun id h => h,
      by simp [c4State],
      by simp [c4State],
      fun id h => absurd h (by simp [c4State])⟩
     (by decide)).1⟩

/-- C9: for a POST request whose input parses (after trimming) to the empty
string and whose stage is not execute, the handler responds with the
default apology payload — whose title is \"Signal Lost\" — makes no upstream
generation call, and leaves the server state untouched. -/
theorem c9_handler_empty_input (req : HReq) (env : HEnv) (st : SrvState)
    (now : Int) (hm : req.method = "POST") (hin : reqInput req.body = "")
    (hst : reqStage req.body ≠ "execute") :
    handler req env st now = ⟨.ok (.market buildApologyPayload none), [], st⟩ ∧
    buildApologyPayload =
      .apology ⟨"Signal Lost", "Sorry - I analyze software markets only.",
                "Try: CRM, payments, video conferencing."⟩ := by
  refine ⟨?_, rfl⟩
  simp only [handler, hm]
  rw [if_neg (by simp), if_pos ⟨hin, hst⟩]

def c9Req : HReq :=
  ⟨"POST", some (.obj [("input", .str "  "), ("stage", .str "results")])⟩

def c9Env : HEnv :=
  ⟨.timeout, .timeout, .timeout, .timeout, .timeout, none, "pid", fun p => (p, [])⟩

/-- Witness for C9: a concrete whitespace-only input at stage results. -/
theorem c9_handler_empty_input_w :
    handler c9Req c9Env ⟨[], [], []⟩ 0 =
      ⟨.ok (.market buildApologyPayload none), [], ⟨[], [], []⟩⟩ :=
  (c9_handler_empty_input c9Req c9Env ⟨[], [], []⟩ 0 rfl (by decide) (by decide)).1

end MarketMap
